import Mathlib

/-!
Shallow embedding of the toeic4all-apis Redis layer and its callers:
`app/db/redis_client.py` (RedisLock, RedisCache, RateLimiter),
`app/middleware/rate_limit.py` (RateLimitMiddleware.dispatch) and
`app/services/cache_service.py` (CachedQueryService).

Redis is modelled as explicit state passed through each operation:
the rate-limit counter for one identifier is an `Option RLEntry`
(count plus the TTL answer Redis would give), the lock key holds an
`Option String`, and the shared cache database is an association list
from full key strings to stored strings.  Each `await redis.<op>` in
the Python source becomes one atomic transition on that state; a
Lua `eval` is a single transition (Redis executes scripts atomically).
Python `None` becomes `Option.none`, Python truthiness is modelled
where the source branches on it.  `uuid.uuid4()` is modelled as an
oracle argument supplying the fresh token.  Floating point values and
wall-clock time are outside the embedding: the `acquire` retry loop is
indexed by the number of attempts its timeout window admits.
-/

namespace Toeic4all

/-! ## RateLimiter (`app/db/redis_client.py` lines 176-228)

The counter key `ratelimit:{identifier}` for a single identifier.
`count` is the stored integer, `ttl` is what `redis.ttl` would answer
for the key: a positive number of seconds, or `-1` when the key has no
expiry (Redis returns `-2` for an absent key, which the model covers by
`Option.none`). -/

structure RLEntry where
  count : Nat
  ttl : Int
  deriving Repr, DecidableEq

structure RateLimiter where
  maxRequests : Nat
  windowSeconds : Int
  deriving Repr, DecidableEq

/-- `count = await redis.get(key)` — the read phase of `is_allowed`
(line 197): the counter observed at the key, `none` when absent. -/
def isAllowedRead (st : Option RLEntry) : Option Nat :=
  st.map (·.count)

/-- `redis.incr(key)`: atomic increment; on an absent key Redis creates
it with value 1 and no expiry. -/
def redisIncr (st : Option RLEntry) : Option RLEntry :=
  match st with
  | none => some ⟨1, -1⟩
  | some e => some ⟨e.count + 1, e.ttl⟩

/-- The write phase of `is_allowed` (lines 199-209): branch on the value
observed by the read phase, then apply the chosen write to the current
state of the key.  `count is None` → `redis.set(key, 1, ex=window)`;
`int(count) < max_requests` → `redis.incr(key)`; otherwise deny. -/
def isAllowedWrite (rl : RateLimiter) (observed : Option Nat) (st : Option RLEntry) :
    Bool × Option RLEntry :=
  match observed with
  | none => (true, some ⟨1, rl.windowSeconds⟩)
  | some c =>
      if c < rl.maxRequests then (true, redisIncr st)
      else (false, st)

/-- `RateLimiter.is_allowed` run without interference: the write phase
applied to the same state the read phase saw. -/
def isAllowed (rl : RateLimiter) (st : Option RLEntry) : Bool × Option RLEntry :=
  isAllowedWrite rl (isAllowedRead st) st

/-- Run `is_allowed` repeatedly (sequentially) from a starting state,
collecting the list of admission decisions. -/
def isAllowedRuns (rl : RateLimiter) : Nat → Option RLEntry → List Bool × Option RLEntry
  | 0, st => ([], st)
  | n + 1, st =>
      let (b, st') := isAllowed rl st
      let (bs, st'') := isAllowedRuns rl n st'
      (b :: bs, st'')

/-- Two racing `is_allowed` calls for the same identifier, interleaved
as: A reads, B reads, A writes, B writes.  Each read and each write is
one atomic Redis command, so this interleaving is admitted by the
source, whose read (line 197) and write (lines 201/205) are separate
awaited commands. -/
def isAllowedRace (rl : RateLimiter) (st : Option RLEntry) :
    (Bool × Bool) × Option RLEntry :=
  let oA := isAllowedRead st
  let oB := isAllowedRead st
  let (rA, st1) := isAllowedWrite rl oA st
  let (rB, st2) := isAllowedWrite rl oB st1
  ((rA, rB), st2)

/-- `RateLimiter.get_remaining` (lines 211-228).  The pipeline reads the
counter (`None` → 0) and the TTL (`-2` for an absent key); Python's
`results[1] if results[1] and results[1] > 0 else self.window_seconds`
keeps the TTL only when it is nonzero and positive.  Returns
(`remaining`, `reset_seconds`). -/
def getRemaining (rl : RateLimiter) (st : Option RLEntry) : Int × Int :=
  let countRes : Option Nat := st.map (·.count)
  let ttlRes : Int := match st with
    | none => -2
    | some e => e.ttl
  let count : Int := match countRes with
    | none => 0
    | some c => (c : Int)
  let ttl : Int := if ttlRes ≠ 0 ∧ 0 < ttlRes then ttlRes else rl.windowSeconds
  (max 0 ((rl.maxRequests : Int) - count), ttl)

/-! ## RateLimitMiddleware.dispatch (`app/middleware/rate_limit.py`)

Only the rate-limit behaviour is modelled: the downstream handler is
opaque, so a dispatch outcome is either "passed through without
rate-limit processing" (path lacks `/api/v1/`), or a processed response
carrying the status (429 on denial, otherwise the downstream response,
abstracted as status 200) and the `X-RateLimit-*` header values. -/

/-- Python's `needle in haystack` on strings: substring containment. -/
def strContains (haystack needle : String) : Prop :=
  needle.toList <:+: haystack.toList

instance (haystack needle : String) : Decidable (strContains haystack needle) :=
  List.decidableInfix _ _

structure DispatchResponse where
  status : Nat
  limitHeader : Int
  remainingHeader : Int
  resetHeader : Int
  deriving Repr, DecidableEq

/-- `RateLimitMiddleware.dispatch` (lines 16-65) for one request, over
the counter state of the requesting client's identifier.  `none` means
the request was not rate-limit processed (no `/api/v1/` in the path). -/
def dispatch (rl : RateLimiter) (path : String) (st : Option RLEntry) :
    Option DispatchResponse × Option RLEntry :=
  if strContains path "/api/v1/" then
    let isPublic : Bool := decide (strContains path "/api/v1/questions/")
    let maxRequests : Nat := if isPublic then rl.maxRequests * 2 else rl.maxRequests
    let (allowed, st1) := isAllowed rl st
    if !allowed then
      let (_, reset) := getRemaining rl st1
      (some ⟨429, (maxRequests : Int), 0, reset⟩, st1)
    else
      let (remaining, reset) := getRemaining rl st1
      (some ⟨200, (maxRequests : Int), remaining, reset⟩, st1)
  else
    (none, st)

/-! ## RedisLock (`app/db/redis_client.py` lines 37-108)

One lock key `lock:{lock_name}`; its state is `Option String` (the
stored token, or absent).  `uuid.uuid4()` is an oracle argument.
`acquire`'s retry loop runs while wall-clock time remains; the model
indexes it by the number of `SET NX` attempts its timeout window
admits (a positive timeout admits at least one attempt). -/

structure RedisLock where
  expireSeconds : Nat
  lockValue : Option String
  deriving Repr, DecidableEq

/-- The retry loop of `acquire` (lines 53-67): each iteration issues one
`SET key value EX expire NX`, which succeeds exactly on an absent key;
on failure it sleeps and retries until the timeout window closes. -/
def acquireLoop (fresh : String) : Nat → Option String → Bool × Option String
  | 0, st => (false, st)
  | attempts + 1, st =>
      match st with
      | none => (true, some fresh)
      | some v => acquireLoop fresh attempts (some v)

/-- `RedisLock.acquire` (lines 48-70): line 51 overwrites
`self.lock_value` with the fresh token before the first attempt, so the
instance records the new token even when every attempt fails. -/
def RedisLock.acquire (lk : RedisLock) (fresh : String) (attempts : Nat)
    (st : Option String) : (Bool × RedisLock) × Option String :=
  let lk' := { lk with lockValue := some fresh }
  let (ok, st') := acquireLoop fresh attempts st
  ((ok, lk'), st')

/-- The Lua script of `release` (lines 79-85), executed by Redis as one
atomic unit: delete the key iff its current value equals the token,
returning 1 on delete and 0 otherwise. -/
def releaseScript (token : String) (st : Option String) : Nat × Option String :=
  if st = some token then (1, none) else (0, st)

/-- `RedisLock.release` (lines 72-95).  The last component records
whether the store was contacted (the script evaluated).  Python's
`if not self.lock_value` is falsy for `None` and for the empty string. -/
def RedisLock.release (lk : RedisLock) (st : Option String) :
    (Bool × Option String) × Bool :=
  match lk.lockValue with
  | none => ((false, st), false)
  | some tok =>
      if tok = "" then ((false, st), false)
      else
        let (result, st') := releaseScript tok st
        ((result != 0, st'), true)

/-! ## Python values and the `json` module

`RedisCache.set` serialises with `json.dumps` and `RedisCache.get`
decodes with `json.loads` (falling back to the raw string when the
decode fails).  The value universe is modelled by `PyVal`: the
JSON-serialisable Python types `None`, `bool`, `int`, `str`, `list`,
`tuple` and string-keyed `dict` — every constructor passes the
`isinstance` check on line 141 of `redis_client.py` and is accepted by
`json.dumps`, so the `str(value)` fallbacks never fire on this
universe.  Floats are outside the embedding (floating point), and
sets / arbitrary objects (which degrade to `str(value)`) are not
modelled.  Strings are lists of unicode scalar values (Lean `Char`);
lone surrogates, which Lean cannot represent, are excluded. -/

mutual

inductive PyVal where
  | pnone
  | pbool (b : Bool)
  | pint (n : Int)
  | pstr (s : List Char)
  | plist (xs : PyList)
  | ptuple (xs : PyList)
  | pdict (kvs : PyDict)
  deriving DecidableEq, Repr

inductive PyList where
  | nil
  | cons (v : PyVal) (vs : PyList)
  deriving DecidableEq, Repr

inductive PyDict where
  | dnil
  | dcons (k : List Char) (v : PyVal) (rest : PyDict)
  deriving DecidableEq, Repr

end

/-- Opening brace character (written by code point to keep it out of
string literals). -/
def lbrace : Char := Char.ofNat 123

/-- Closing brace character. -/
def rbrace : Char := Char.ofNat 125

/-- Lowercase hexadecimal digit, as emitted by `json.dumps` in
`\uXXXX` escapes. -/
def hexDigitChar (n : Nat) : Char :=
  if n < 10 then Char.ofNat (48 + n) else Char.ofNat (87 + n)

/-- Four fixed hex digits of a code unit below `0x10000`. -/
def hex4 (n : Nat) : List Char :=
  [hexDigitChar (n / 4096 % 16), hexDigitChar (n / 256 % 16),
   hexDigitChar (n / 16 % 16), hexDigitChar (n % 16)]

/-- `json.dumps` escaping of one character (`ensure_ascii=True`, the
default): `"` and `\` and the short control escapes are written with a
backslash, every other character outside printable ASCII
(`0x20`-`0x7e`) becomes `\uXXXX`, astral characters becoming a
surrogate pair of escapes. -/
def escapeChar (c : Char) : List Char :=
  let n := c.toNat
  if c = '"' then ['\\', '"']
  else if c = '\\' then ['\\', '\\']
  else if n = 8 then ['\\', 'b']
  else if n = 9 then ['\\', 't']
  else if n = 10 then ['\\', 'n']
  else if n = 12 then ['\\', 'f']
  else if n = 13 then ['\\', 'r']
  else if n < 32 ∨ 126 < n then
    if n < 65536 then '\\' :: 'u' :: hex4 n
    else
      let v := n - 65536
      ('\\' :: 'u' :: hex4 (55296 + v / 1024)) ++ ('\\' :: 'u' :: hex4 (56320 + v % 1024))
  else [c]

/-- Escape a whole string body. -/
def escapeStr : List Char → List Char
  | [] => []
  | c :: cs => escapeChar c ++ escapeStr cs

/-- Decimal digits of a natural number, most significant first. -/
def natToDigits (n : Nat) : List Char :=
  if n < 10 then [Char.ofNat (48 + n)]
  else natToDigits (n / 10) ++ [Char.ofNat (48 + n % 10)]
  decreasing_by exact Nat.div_lt_self (by omega) (by omega)

/-- Python's rendering of an `int` (as serialised by `json.dumps`). -/
def intRender (n : Int) : List Char :=
  if n < 0 then '-' :: natToDigits n.natAbs else natToDigits n.toNat

mutual

/-- `json.dumps(value)` with the default separators `", "` and `": "`:
tuples are serialised exactly like lists, as JSON arrays. -/
def render : PyVal → List Char
  | .pnone => ['n', 'u', 'l', 'l']
  | .pbool true => ['t', 'r', 'u', 'e']
  | .pbool false => ['f', 'a', 'l', 's', 'e']
  | .pint n => intRender n
  | .pstr s => '"' :: (escapeStr s ++ ['"'])
  | .plist xs => '[' :: (renderItems xs ++ [']'])
  | .ptuple xs => '[' :: (renderItems xs ++ [']'])
  | .pdict kvs => lbrace :: (renderPairs kvs ++ [rbrace])

/-- Array elements joined by `", "`. -/
def renderItems : PyList → List Char
  | .nil => []
  | .cons v .nil => render v
  | .cons v (.cons w vs) => render v ++ (',' :: ' ' :: renderItems (.cons w vs))

/-- Object members `"key": value` joined by `", "`. -/
def renderPairs : PyDict → List Char
  | .dnil => []
  | .dcons k v .dnil => ('"' :: (escapeStr k ++ ['"'])) ++ (':' :: ' ' :: render v)
  | .dcons k v (.dcons k2 w rest) =>
      ('"' :: (escapeStr k ++ ['"'])) ++ (':' :: ' ' :: render v) ++
        (',' :: ' ' :: renderPairs (.dcons k2 w rest))

end

mutual

/-- What `json.loads` gives back for a serialised value: JSON has no
tuples, so a tuple is decoded as the corresponding list. -/
def toLoads : PyVal → PyVal
  | .pnone => .pnone
  | .pbool b => .pbool b
  | .pint n => .pint n
  | .pstr s => .pstr s
  | .plist xs => .plist (toLoadsL xs)
  | .ptuple xs => .plist (toLoadsL xs)
  | .pdict kvs => .pdict (toLoadsD kvs)

def toLoadsL : PyList → PyList
  | .nil => .nil
  | .cons v vs => .cons (toLoads v) (toLoadsL vs)

def toLoadsD : PyDict → PyDict
  | .dnil => .dnil
  | .dcons k v rest => .dcons k (toLoads v) (toLoadsD rest)

end

mutual

/-- No tuple occurs anywhere in the value. -/
def tupleFree : PyVal → Bool
  | .pnone | .pbool _ | .pint _ | .pstr _ => true
  | .plist xs => tupleFreeL xs
  | .ptuple _ => false
  | .pdict kvs => tupleFreeD kvs

def tupleFreeL : PyList → Bool
  | .nil => true
  | .cons v vs => tupleFree v && tupleFreeL vs

def tupleFreeD : PyDict → Bool
  | .dnil => true
  | .dcons _ v rest => tupleFree v && tupleFreeD rest

end

/-! ### `json.loads`

A fuelled recursive-descent decoder for the JSON fragment that the
serialiser above emits (integer numbers; no floats, since floats are
outside the embedding).  `none` models a raised `JSONDecodeError`. -/

/-- JSON whitespace accepted between tokens. -/
def isWsChar (c : Char) : Bool :=
  c = ' ' || c.toNat = 9 || c.toNat = 10 || c.toNat = 13

def skipWs : List Char → List Char
  | [] => []
  | c :: cs => if isWsChar c then skipWs cs else c :: cs

def isDigitChar (c : Char) : Bool :=
  48 ≤ c.toNat && c.toNat ≤ 57

/-- Fold the leading run of decimal digits into `acc`. -/
def parseDigitsAux (acc : Nat) : List Char → Nat × List Char
  | [] => (acc, [])
  | c :: cs =>
      if isDigitChar c then parseDigitsAux (acc * 10 + (c.toNat - 48)) cs
      else (acc, c :: cs)

/-- A nonempty run of decimal digits. -/
def parseNat (s : List Char) : Option (Nat × List Char) :=
  match s with
  | [] => none
  | c :: _ => if isDigitChar c then some (parseDigitsAux 0 s) else none

/-- An optionally-signed integer literal. -/
def parseIntTok : List Char → Option (Int × List Char)
  | [] => none
  | c :: cs =>
      if c = '-' then (parseNat cs).map (fun p => (-(p.1 : Int), p.2))
      else (parseNat (c :: cs)).map (fun p => ((p.1 : Int), p.2))

def hexVal (c : Char) : Option Nat :=
  if 48 ≤ c.toNat ∧ c.toNat ≤ 57 then some (c.toNat - 48)
  else if 97 ≤ c.toNat ∧ c.toNat ≤ 102 then some (c.toNat - 87)
  else if 65 ≤ c.toNat ∧ c.toNat ≤ 70 then some (c.toNat - 55)
  else none

def parseHex4 : List Char → Option (Nat × List Char)
  | a :: b :: c :: d :: rest =>
      match hexVal a, hexVal b, hexVal c, hexVal d with
      | some x, some y, some z, some w => some (((x * 16 + y) * 16 + z) * 16 + w, rest)
      | _, _, _, _ => none
  | _ => none

/-- Body of a string literal, after the opening quote, up to and
including the closing quote.  Surrogate-pair escapes are recombined
into the astral character (Lean strings cannot hold lone surrogates,
so an unpaired surrogate escape is a decode failure here). -/
def parseStrBody : Nat → List Char → Option (List Char × List Char)
  | 0, _ => none
  | _ + 1, [] => none
  | fuel + 1, c :: cs =>
      if c = '"' then some ([], cs)
      else if c = '\\' then
        match cs with
        | [] => none
        | e :: cs2 =>
            if e = '"' then (parseStrBody fuel cs2).map (fun p => ('"' :: p.1, p.2))
            else if e = '\\' then (parseStrBody fuel cs2).map (fun p => ('\\' :: p.1, p.2))
            else if e = '/' then (parseStrBody fuel cs2).map (fun p => ('/' :: p.1, p.2))
            else if e = 'b' then (parseStrBody fuel cs2).map (fun p => (Char.ofNat 8 :: p.1, p.2))
            else if e = 't' then (parseStrBody fuel cs2).map (fun p => (Char.ofNat 9 :: p.1, p.2))
            else if e = 'n' then (parseStrBody fuel cs2).map (fun p => (Char.ofNat 10 :: p.1, p.2))
            else if e = 'f' then (parseStrBody fuel cs2).map (fun p => (Char.ofNat 12 :: p.1, p.2))
            else if e = 'r' then (parseStrBody fuel cs2).map (fun p => (Char.ofNat 13 :: p.1, p.2))
            else if e = 'u' then
              match parseHex4 cs2 with
              | none => none
              | some (n, cs3) =>
                  if 55296 ≤ n ∧ n ≤ 56319 then
                    match cs3 with
                    | b1 :: u1 :: cs4 =>
                        if b1 = '\\' ∧ u1 = 'u' then
                          match parseHex4 cs4 with
                          | none => none
                          | some (m, cs5) =>
                              if 56320 ≤ m ∧ m ≤ 57343 then
                                (parseStrBody fuel cs5).map
                                  (fun p => (Char.ofNat (65536 + (n - 55296) * 1024 + (m - 56320)) :: p.1, p.2))
                              else none
                        else none
                    | _ => none
                  else (parseStrBody fuel cs3).map (fun p => (Char.ofNat n :: p.1, p.2))
            else none
      else (parseStrBody fuel cs).map (fun p => (c :: p.1, p.2))

/-- Check that the input starts with the given literal characters. -/
def expectLit : List Char → List Char → Option (List Char)
  | [], s => some s
  | l :: ls, c :: cs => if c = l then expectLit ls cs else none
  | _ :: _, [] => none

mutual

/-- One JSON value, leading whitespace allowed; returns it with the
unconsumed remainder. -/
def parseVal : Nat → List Char → Option (PyVal × List Char)
  | 0, _ => none
  | fuel + 1, input =>
      match skipWs input with
      | [] => none
      | c :: cs =>
          if c = 'n' then (expectLit ['u', 'l', 'l'] cs).map (fun r => (.pnone, r))
          else if c = 't' then (expectLit ['r', 'u', 'e'] cs).map (fun r => (.pbool true, r))
          else if c = 'f' then (expectLit ['a', 'l', 's', 'e'] cs).map (fun r => (.pbool false, r))
          else if c = '"' then (parseStrBody fuel cs).map (fun p => (.pstr p.1, p.2))
          else if c = '[' then
            match skipWs cs with
            | [] => none
            | d :: ds =>
                if d = ']' then some (.plist .nil, ds)
                else (parseItems fuel (d :: ds)).map (fun p => (.plist p.1, p.2))
          else if c = lbrace then
            match skipWs cs with
            | [] => none
            | d :: ds =>
                if d = rbrace then some (.pdict .dnil, ds)
                else (parsePairs fuel (d :: ds)).map (fun p => (.pdict p.1, p.2))
          else (parseIntTok (c :: cs)).map (fun p => (.pint p.1, p.2))

/-- Elements of a nonempty array, consuming the closing `]`. -/
def parseItems : Nat → List Char → Option (PyList × List Char)
  | 0, _ => none
  | fuel + 1, input =>
      match parseVal fuel input with
      | none => none
      | some (v, rest) =>
          match skipWs rest with
          | [] => none
          | c :: cs =>
              if c = ',' then (parseItems fuel cs).map (fun p => (.cons v p.1, p.2))
              else if c = ']' then some (.cons v .nil, cs)
              else none

/-- Members of a nonempty object, consuming the closing brace. -/
def parsePairs : Nat → List Char → Option (PyDict × List Char)
  | 0, _ => none
  | fuel + 1, input =>
      match skipWs input with
      | [] => none
      | c :: cs =>
          if c = '"' then
            match parseStrBody fuel cs with
            | none => none
            | some (k, rest) =>
                match skipWs rest with
                | [] => none
                | d :: ds =>
                    if d = ':' then
                      match parseVal fuel ds with
                      | none => none
                      | some (v, rest2) =>
                          match skipWs rest2 with
                          | [] => none
                          | e :: es =>
                              if e = ',' then
                                (parsePairs fuel es).map (fun p => (.dcons k v p.1, p.2))
                              else if e = rbrace then some (.dcons k v .dnil, es)
                              else none
                    else none
          else none

end

/-- `json.loads(s)`: decode one value and require only whitespace to
remain. -/
def loads (s : List Char) : Option PyVal :=
  match parseVal (s.length + 1) s with
  | some (v, rest) => if skipWs rest = [] then some v else none
  | none => none

/-! ## RedisCache (`app/db/redis_client.py` lines 111-173)

The shared Redis database is an association list from full key strings
(as `List Char`, so that key concatenation is list append) to the
stored string together with the TTL it was written with.  `storeSet`
keeps at most one entry per key, as Redis does. -/

abbrev RKey := List Char

abbrev Store := List (RKey × (List Char × Nat))

def storeGet (store : Store) (k : RKey) : Option (List Char) :=
  (store.find? (fun e => e.1 = k)).map (fun e => e.2.1)

/-- `SET key value EX ttl`: upsert. -/
def storeSet (store : Store) (k : RKey) (v : List Char) (ttl : Nat) : Store :=
  (k, (v, ttl)) :: store.filter (fun e => ¬ e.1 = k)

/-- `DEL key`, returning the number of keys removed. -/
def storeDel (store : Store) (k : RKey) : Nat × Store :=
  ((if (store.find? (fun e => e.1 = k)).isSome then 1 else 0),
   store.filter (fun e => ¬ e.1 = k))

structure RCache where
  keyPrefix : RKey
  defaultTtl : Nat
  deriving Repr, DecidableEq

/-- `RedisCache._make_key`: `f"{self.prefix}:{key}"`. -/
def RCache.makeKey (c : RCache) (k : RKey) : RKey :=
  c.keyPrefix ++ (':' :: k)

/-- `RedisCache.set` (lines 136-149): every `PyVal` passes the
`isinstance` check on line 141 and `json.dumps` succeeds on it, so the
stored string is the JSON rendering (the `str(value)` fallbacks would
fire only for value types outside this universe). -/
def RCache.set (c : RCache) (store : Store) (k : RKey) (v : PyVal) (ttl : Option Nat) : Store :=
  let t := match ttl with
    | some t => t
    | none => c.defaultTtl
  storeSet store (c.makeKey k) (render v) t

/-- `RedisCache.get` (lines 125-134): a missing key, or a stored empty
string (falsy), reads as `None`; otherwise `json.loads`, falling back
to the raw string when the decode fails. -/
def RCache.get (c : RCache) (store : Store) (k : RKey) : Option PyVal :=
  match storeGet store (c.makeKey k) with
  | none => none
  | some data =>
      if data = [] then none
      else
        match loads data with
        | some v => some v
        | none => some (.pstr data)

/-- `RedisCache.delete` (lines 151-154): `bool(redis.delete(...))`. -/
def RCache.del (c : RCache) (store : Store) (k : RKey) : Bool × Store :=
  let (n, store') := storeDel store (c.makeKey k)
  (n != 0, store')

/-- `RedisCache.keys("*")` (lines 166-173): all keys under the cache's
prefix, with `f"{prefix}:"` stripped (`prefix_len = len(prefix) + 1`). -/
def RCache.keysAll (c : RCache) (store : Store) : List RKey :=
  (store.map (fun e => e.1)).filterMap
    (fun k => if (c.keyPrefix ++ [':']) <+: k then some (k.drop (c.keyPrefix.length + 1)) else none)

/-! ## CachedQueryService (`app/services/cache_service.py`)

The four caches built in `__init__` (lines 17-22).  The raw
collaborator `QueryService` reaches MongoDB, which is outside the
store model, so each operation takes the collaborator's result as an
oracle argument; the textual query parameters interpolated into the
f-string cache keys are likewise taken already rendered. -/

def part5Cache : RCache := ⟨"part5".toList, 3600⟩
def part6Cache : RCache := ⟨"part6".toList, 3600⟩
def part7Cache : RCache := ⟨"part7".toList, 3600⟩
def metadataCache : RCache := ⟨"metadata".toList, 86400⟩

/-- Python truthiness of a decoded cache value. -/
def pyTruthy : PyVal → Bool
  | .pnone => false
  | .pbool b => b
  | .pint n => n != 0
  | .pstr s => !s.isEmpty
  | .plist .nil => false
  | .plist (.cons _ _) => true
  | .ptuple .nil => false
  | .ptuple (.cons _ _) => true
  | .pdict .dnil => false
  | .pdict (.dcons _ _ _) => true

/-- Truthiness of `cached` at the Python level, where a cache miss is
`None`. -/
def pyOptTruthy : Option PyVal → Bool
  | none => false
  | some v => pyTruthy v

/-- `cached is None` at the Python level: a miss, or a stored JSON
`null`, both read as Python `None`. -/
def pyOptIsNone : Option PyVal → Bool
  | none => true
  | some .pnone => true
  | some _ => false

/-- `CachedQueryService.get_part5_questions` (lines 25-60).  `params`
is the rendered tail of the f-string key
`f"qs:{category}:{subtype}:{difficulty}:{keyword}:{limit}:{page}"`;
`dbQuestions` is what `query_service.get_part5_questions` returns.
The write is guarded: `if questions:`. -/
def getPart5Questions (store : Store) (params : RKey) (dbQuestions : PyVal)
    (useCache : Bool) : PyVal × Store :=
  if !useCache then (dbQuestions, store)
  else
    let cacheKey := "qs:".toList ++ params
    let cached := part5Cache.get store cacheKey
    if pyOptTruthy cached then (cached.getD .pnone, store)
    else
      let questions := dbQuestions
      if pyTruthy questions then
        (questions, part5Cache.set store cacheKey questions none)
      else (questions, store)

/-- `CachedQueryService.get_part5_total_count` (lines 62-84): the hit
test is `if cached is not None`, and the write is unconditional, with
`ttl=7200`. -/
def getPart5TotalCount (store : Store) (params : RKey) (dbCount : PyVal)
    (useCache : Bool) : PyVal × Store :=
  if !useCache then (dbCount, store)
  else
    let cacheKey := "count:".toList ++ params
    let cached := part5Cache.get store cacheKey
    if !pyOptIsNone cached then (cached.getD .pnone, store)
    else
      let count := dbCount
      (count, part5Cache.set store cacheKey count (some 7200))

/-- `CachedQueryService.get_part5_categories` (lines 91-107): metadata
cache, hit test `if cached:`, and the write is unconditional (default
24h TTL). -/
def getPart5Categories (store : Store) (dbCategories : PyVal)
    (useCache : Bool) : PyVal × Store :=
  if !useCache then (dbCategories, store)
  else
    let cacheKey := "categories".toList
    let cached := metadataCache.get store cacheKey
    if pyOptTruthy cached then (cached.getD .pnone, store)
    else
      let categories := dbCategories
      (categories, metadataCache.set store cacheKey categories none)

/-- One branch of `CachedQueryService.clear_cache` (lines 380-408):
fetch the cache's keys, delete each, return how many there were. -/
def clearOne (c : RCache) (store : Store) : Nat × Store :=
  let ks := c.keysAll store
  (ks.length, ks.foldl (fun st k => (c.del st k).2) store)

/-- `CachedQueryService.clear_cache`.  The source's `else` branch calls
`self.clear_cache("part5")` and so on; each such call takes the
corresponding equality branch, i.e. is `clearOne` of that cache, so the
recursion is unfolded here. -/
def clearCache (resourceType : Option String) (store : Store) : Nat × Store :=
  if resourceType = some "part5" then clearOne part5Cache store
  else if resourceType = some "part6" then clearOne part6Cache store
  else if resourceType = some "part7" then clearOne part7Cache store
  else if resourceType = some "metadata" then clearOne metadataCache store
  else
    let (part5Count, s1) := clearOne part5Cache store
    let (part6Count, s2) := clearOne part6Cache s1
    let (part7Count, s3) := clearOne part7Cache s2
    let (metadataCount, s4) := clearOne metadataCache s3
    (part5Count + part6Count + part7Count + metadataCount, s4)

/-! ## Fuel measures and separators for the decoder proofs -/

/-- The input that may legally follow a serialised value inside a
document: nothing, or a separator (`,`, `]`, or closing brace).  This
is what keeps maximal-munch number parsing from running past a value. -/
def sepOk : List Char → Bool
  | [] => true
  | c :: _ => c = ',' || c = ']' || c = rbrace

mutual

/-- Fuel sufficient for `parseVal` to decode the rendering of a value. -/
def sizeP : PyVal → Nat
  | .pnone => 1
  | .pbool _ => 1
  | .pint _ => 1
  | .pstr s => s.length + 2
  | .plist .nil => 1
  | .plist (.cons v vs) => sizeL (.cons v vs) + 1
  | .ptuple .nil => 1
  | .ptuple (.cons v vs) => sizeL (.cons v vs) + 1
  | .pdict .dnil => 1
  | .pdict (.dcons k v r) => sizeD (.dcons k v r) + 1

def sizeL : PyList → Nat
  | .nil => 1
  | .cons v vs => max (sizeP v) (sizeL vs) + 1

def sizeD : PyDict → Nat
  | .dnil => 1
  | .dcons k v r => max (k.length + 1) (max (sizeP v) (sizeD r)) + 1

end

/-! # Theorems -/

/-! ## Rate limiter -/

/-- C6: `is_allowed` creates an absent counter with value 1 and TTL
equal to the window length and allows; increments and allows while the
counter is strictly below `max_requests`; denies and leaves the counter
unchanged at or above `max_requests`.  With `max_requests = 3` and
`window_seconds = 60`, four consecutive calls for a fresh identifier
return `[true, true, true, false]`. -/
theorem isAllowed_cases (rl : RateLimiter) (st : Option RLEntry) :
    (st = none → isAllowed rl st = (true, some ⟨1, rl.windowSeconds⟩)) ∧
    (∀ e, st = some e → e.count < rl.maxRequests →
      isAllowed rl st = (true, some ⟨e.count + 1, e.ttl⟩)) ∧
    (∀ e, st = some e → rl.maxRequests ≤ e.count →
      isAllowed rl st = (false, some e)) ∧
    (isAllowedRuns ⟨3, 60⟩ 4 none).1 = [true, true, true, false] := by
  refine ⟨fun h => ?_, fun e he hlt => ?_, fun e he hge => ?_, by decide⟩
  · subst h; rfl
  · subst he
    simp [isAllowed, isAllowedRead, isAllowedWrite, redisIncr, hlt]
  · subst he
    simp [isAllowed, isAllowedRead, isAllowedWrite, Nat.not_lt.mpr hge]

/-- Witness for C6: the three branch hypotheses discharged at concrete
states with `max_requests = 3`, `window_seconds = 60`. -/
theorem isAllowed_cases_witness :
    isAllowed ⟨3, 60⟩ none = (true, some ⟨1, 60⟩) ∧
    isAllowed ⟨3, 60⟩ (some ⟨1, 60⟩) = (true, some ⟨2, 60⟩) ∧
    isAllowed ⟨3, 60⟩ (some ⟨3, 60⟩) = (false, some ⟨3, 60⟩) :=
  ⟨(isAllowed_cases ⟨3, 60⟩ none).1 rfl,
   (isAllowed_cases ⟨3, 60⟩ (some ⟨1, 60⟩)).2.1 ⟨1, 60⟩ rfl (by decide),
   (isAllowed_cases ⟨3, 60⟩ (some ⟨3, 60⟩)).2.2.1 ⟨3, 60⟩ rfl (by decide)⟩

/-- C7: `get_remaining` reports `max(0, max_requests - counter)` with an
absent counter counting as 0, and as reset time the key's TTL when
positive, otherwise the full window length — a positive value whenever
the configured window is positive. -/
theorem getRemaining_spec (rl : RateLimiter) (st : Option RLEntry) :
    (getRemaining rl st).1 =
      max 0 ((rl.maxRequests : Int) -
        (match st with | none => 0 | some e => (e.count : Int))) ∧
    (getRemaining rl st).2 =
      (match st with
       | none => rl.windowSeconds
       | some e => if 0 < e.ttl then e.ttl else rl.windowSeconds) ∧
    (0 < rl.windowSeconds → 0 < (getRemaining rl st).2) := by
  match st with
  | none =>
      refine ⟨rfl, by simp [getRemaining], fun h => ?_⟩
      simp only [getRemaining]
      omega
  | some e =>
      refine ⟨rfl, ?_, fun h => ?_⟩
      · by_cases ht : 0 < e.ttl
        · simp [getRemaining, ht, ne_of_gt ht]
        · simp only [getRemaining, if_neg, ht, ite_false]
          simp [ht]
      · by_cases ht : 0 < e.ttl
        · simp only [getRemaining]
          omega
        · simp only [getRemaining]
          omega

/-- Witness for C7: the positivity hypothesis discharged at a concrete
limiter and state. -/
theorem getRemaining_spec_witness :
    (getRemaining ⟨100, 60⟩ (some ⟨7, -1⟩)).1 = 93 ∧
    0 < (getRemaining ⟨100, 60⟩ (some ⟨7, -1⟩)).2 :=
  ⟨by decide, (getRemaining_spec ⟨100, 60⟩ (some ⟨7, -1⟩)).2.2 (by decide)⟩

/-- C2 (code bug evaluated): two racing first requests for the same
fresh identifier, interleaved read/read/write/write, both get admitted
yet leave the counter at 1 — the second `SET key 1` overwrites the
first, a lost update — whereas the same two requests run sequentially
leave the counter at 2.  The creation path of `is_allowed` is a
non-atomic get-then-set, not an atomic increment. -/
theorem isAllowed_race_lost_update (rl : RateLimiter) (h : 1 < rl.maxRequests) :
    isAllowedRace rl none = ((true, true), some ⟨1, rl.windowSeconds⟩) ∧
    (isAllowedRuns rl 2 none).2 = some ⟨2, rl.windowSeconds⟩ := by
  refine ⟨rfl, ?_⟩
  simp [isAllowedRuns, isAllowed, isAllowedRead, isAllowedWrite, redisIncr, h]

/-- Witness for C2's evaluation at the default public configuration
`max_requests = 100`. -/
theorem isAllowed_race_lost_update_witness :
    isAllowedRace ⟨100, 60⟩ none = ((true, true), some ⟨1, 60⟩) ∧
    (isAllowedRuns ⟨100, 60⟩ 2 none).2 = some ⟨2, 60⟩ :=
  isAllowed_race_lost_update ⟨100, 60⟩ (by decide)

/-- C1: for a public route (path containing `/api/v1/questions/`) the
middleware advertises `X-RateLimit-Limit = 2 * max_requests`, while
admission is decided by `is_allowed` with the unmultiplied
`max_requests`: the request is refused (HTTP 429) exactly when the
counter has already reached `max_requests`. -/
theorem dispatch_public_limit (rl : RateLimiter) (path : String) (st : Option RLEntry)
    (hpub : strContains path "/api/v1/questions/") :
    ∃ r st', dispatch rl path st = (some r, st') ∧
      r.limitHeader = 2 * (rl.maxRequests : Int) ∧
      (r.status = 429 ↔ ∃ e, st = some e ∧ rl.maxRequests ≤ e.count) := by
  have hapi : strContains path "/api/v1/" :=
    List.IsInfix.trans (by decide : ("/api/v1/" : String).toList <:+:
      ("/api/v1/questions/" : String).toList) hpub
  match st with
  | none =>
      refine ⟨⟨200, rl.maxRequests * 2, (getRemaining rl (some ⟨1, rl.windowSeconds⟩)).1,
        (getRemaining rl (some ⟨1, rl.windowSeconds⟩)).2⟩, some ⟨1, rl.windowSeconds⟩,
        ?_, by ring, by simp⟩
      simp [dispatch, hapi, hpub, isAllowed, isAllowedRead, isAllowedWrite]
  | some e =>
      by_cases hc : e.count < rl.maxRequests
      · refine ⟨⟨200, rl.maxRequests * 2, (getRemaining rl (redisIncr (some e))).1,
          (getRemaining rl (redisIncr (some e))).2⟩, redisIncr (some e), ?_, by ring, ?_⟩
        · simp [dispatch, hapi, hpub, isAllowed, isAllowedRead, isAllowedWrite, hc]
        · constructor
          · intro h
            simp at h
          · rintro ⟨e', he', hge⟩
            cases he'
            omega
      · refine ⟨⟨429, rl.maxRequests * 2, 0, (getRemaining rl (some e)).2⟩, some e,
          ?_, by ring, ?_⟩
        · simp [dispatch, hapi, hpub, isAllowed, isAllowedRead, isAllowedWrite, hc]
        · exact iff_of_true rfl ⟨e, rfl, Nat.not_lt.mp hc⟩

/-- Witness for C1 at a concrete public path and a counter that has
reached the configured maximum of 3: the response advertises 6 but the
request is denied. -/
theorem dispatch_public_limit_witness :
    ∃ r st', dispatch ⟨3, 60⟩ "/api/v1/questions/part5" (some ⟨3, 30⟩) = (some r, st') ∧
      r.limitHeader = 6 ∧
      (r.status = 429 ↔ ∃ e : RLEntry, some (⟨3, 30⟩ : RLEntry) = some e ∧ 3 ≤ e.count) := by
  have h := dispatch_public_limit ⟨3, 60⟩ "/api/v1/questions/part5"
    (some (⟨3, 30⟩ : RLEntry)) (by decide)
  simpa using h

/-! ## Distributed lock -/

/-- `SET NX` can never succeed while the key is held, however many
times the loop retries. -/
theorem acquireLoop_held (fresh v : String) :
    ∀ attempts, acquireLoop fresh attempts (some v) = (false, some v) := by
  intro attempts
  induction attempts with
  | zero => rfl
  | succ n ih => simpa [acquireLoop] using ih

/-- One attempt on a free key succeeds immediately. -/
theorem acquireLoop_free (fresh : String) (attempts : Nat) (h : 0 < attempts) :
    acquireLoop fresh attempts none = (true, some fresh) := by
  match attempts, h with
  | n + 1, _ => rfl

/-- C4: `release` with a recorded token deletes the lock key if and only
if the key currently holds exactly that token (the compare-and-delete
Lua script being a single store transition), returns true exactly when
the delete occurred, and leaves any other holder's key untouched. -/
theorem release_compare_and_delete (lk : RedisLock) (st : Option String) (tok : String)
    (hrec : lk.lockValue = some tok) (hne : tok ≠ "") :
    (lk.release st).2 = true ∧
    ((lk.release st).1.1 = true ↔ st = some tok) ∧
    (st = some tok → (lk.release st).1.2 = none) ∧
    (st ≠ some tok → (lk.release st).1.2 = st) := by
  by_cases hst : st = some tok
  · subst hst
    simp [RedisLock.release, hrec, hne, releaseScript]
  · refine ⟨?_, ?_, fun h => absurd h hst, fun _ => ?_⟩ <;>
      simp [RedisLock.release, hrec, hne, releaseScript, hst]

/-- Witness for C4: a concrete instance holding token `"a"`, released
against a key held by `"a"` (deleted) — hypotheses discharged there. -/
theorem release_compare_and_delete_witness :
    (RedisLock.release ⟨60, some "a"⟩ (some "a")).2 = true ∧
    ((RedisLock.release ⟨60, some "a"⟩ (some "a")).1.1 = true ↔ some "a" = some "a") ∧
    (some "a" = some "a" → (RedisLock.release ⟨60, some "a"⟩ (some "a")).1.2 = none) :=
  have h := release_compare_and_delete ⟨60, some "a"⟩ (some "a") "a" rfl (by decide)
  ⟨h.1, h.2.1, h.2.2.1⟩

/-- C5 counterexample: an instance whose only `acquire` timed out (three
attempts against a key held by another party) has a recorded token, so
its `release` *does* contact the store — the final `true` is the
contacted-the-store flag — refuting "returns false without contacting
the store"; the call still returns false. -/
theorem release_after_failed_acquire_contacts_store :
    (RedisLock.acquire ⟨60, none⟩ "t1" 3 (some "other")).1.1 = false ∧
    ((RedisLock.acquire ⟨60, none⟩ "t1" 3 (some "other")).1.2.release (some "other")) =
      ((false, some "other"), true) := by
  constructor
  · rfl
  · rfl

/-- C5 as amended: a `release` on an instance whose `acquire` never
succeeded returns false; when no acquire was ever attempted (no token
recorded) it does so without contacting the store, but after a
timed-out acquire the instance holds the fresh token, so `release`
evaluates the compare-and-delete against the store (contacting it) and
returns false because the key, still held by another party's distinct
token, never matches. -/
theorem release_unacquired (lk : RedisLock) (st : Option String) :
    (lk.lockValue = none → lk.release st = ((false, st), false)) ∧
    (∀ fresh attempts v, st = some v → fresh ≠ v → fresh ≠ "" →
      (lk.acquire fresh attempts st).1.1 = false ∧
      (lk.acquire fresh attempts st).2 = st ∧
      ((lk.acquire fresh attempts st).1.2.release st) = ((false, st), true)) := by
  constructor
  · intro h
    simp [RedisLock.release, h]
  · intro fresh attempts v hst hne hne'
    subst hst
    refine ⟨?_, ?_, ?_⟩
    · simp [RedisLock.acquire, acquireLoop_held]
    · simp [RedisLock.acquire, acquireLoop_held]
    · simp [RedisLock.acquire, acquireLoop_held, RedisLock.release, hne',
        releaseScript, Ne.symm hne]

/-- Witness for C5's amended statement: both branches discharged at
concrete instances. -/
theorem release_unacquired_witness :
    (RedisLock.release ⟨60, none⟩ (some "other")) = ((false, some "other"), false) ∧
    ((RedisLock.acquire ⟨60, none⟩ "t1" 3 (some "other")).1.2.release (some "other")) =
      ((false, some "other"), true) :=
  ⟨(release_unacquired ⟨60, none⟩ (some "other")).1 rfl,
   ((release_unacquired ⟨60, none⟩ (some "other")).2 "t1" 3 "other" rfl (by decide)
     (by decide)).2.2⟩

/-- C10: every `acquire` overwrites the recorded token with the fresh
one before its first attempt, succeed or fail; so after a successful
acquire (the store holding `fresh1`) followed by a failed re-acquire on
the same instance (which records `fresh2`), `release` compares `fresh2`
against the stored `fresh1`, deletes nothing, returns false, and the
lock key keeps its value — only TTL expiry can free it. -/
theorem acquire_overwrites_token (lk : RedisLock) (fresh1 fresh2 : String)
    (m n : Nat) (hm : 0 < m) (h12 : fresh2 ≠ fresh1) (h2 : fresh2 ≠ "") :
    (∀ lk' f a st, (RedisLock.acquire lk' f a st).1.2.lockValue = some f) ∧
    (lk.acquire fresh1 m none).1.1 = true ∧
    (lk.acquire fresh1 m none).2 = some fresh1 ∧
    (((lk.acquire fresh1 m none).1.2.acquire fresh2 n (some fresh1)).1.1 = false ∧
     ((lk.acquire fresh1 m none).1.2.acquire fresh2 n (some fresh1)).1.2.lockValue =
       some fresh2 ∧
     ((lk.acquire fresh1 m none).1.2.acquire fresh2 n (some fresh1)).2 = some fresh1 ∧
     (((lk.acquire fresh1 m none).1.2.acquire fresh2 n (some fresh1)).1.2.release
        (some fresh1)) = ((false, some fresh1), true)) := by
  refine ⟨fun lk' f a st => rfl, ?_, ?_, ?_, rfl, ?_, ?_⟩
  · simp [RedisLock.acquire, acquireLoop_free fresh1 m hm]
  · simp [RedisLock.acquire, acquireLoop_free fresh1 m hm]
  · simp [RedisLock.acquire, acquireLoop_held]
  · simp [RedisLock.acquire, acquireLoop_held]
  · simp [RedisLock.acquire, acquireLoop_held, RedisLock.release, h2,
      releaseScript, h12, Ne.symm h12]

/-- Witness for C10 at concrete tokens and attempt counts. -/
theorem acquire_overwrites_token_witness :
    (RedisLock.acquire ⟨60, none⟩ "t1" 1 none).1.1 = true ∧
    ((RedisLock.acquire ⟨60, none⟩ "t1" 1 none).1.2.acquire "t2" 2 (some "t1")).1.2.lockValue
      = some "t2" ∧
    (((RedisLock.acquire ⟨60, none⟩ "t1" 1 none).1.2.acquire "t2" 2 (some "t1")).1.2.release
      (some "t1")) = ((false, some "t1"), true) :=
  have h := acquire_overwrites_token ⟨60, none⟩ "t1" "t2" 1 2 (by decide) (by decide)
    (by decide)
  ⟨h.2.1, h.2.2.2.2.1, h.2.2.2.2.2.2⟩

/-! ## Serialiser/decoder correctness: characters and digits -/

theorem toNat_ofNat_valid (m : Nat) (h : m.isValidChar) : (Char.ofNat m).toNat = m := by
  simp only [Char.ofNat, dif_pos h]
  simp [Char.ofNatAux, Char.toNat, UInt32.toNat, BitVec.toNat_ofNatLt]

theorem toNat_ofNat_small (m : Nat) (h : m < 55296) : (Char.ofNat m).toNat = m :=
  toNat_ofNat_valid m (Or.inl h)

theorem char_toNat_valid (c : Char) :
    c.toNat < 55296 ∨ (57343 < c.toNat ∧ c.toNat < 1114112) := c.valid

theorem char_ne_of_toNat_ne {c d : Char} (h : c.toNat ≠ d.toNat) : c ≠ d :=
  fun he => h (congrArg Char.toNat he)

theorem hexVal_hexDigitChar (d : Nat) (h : d < 16) :
    hexVal (hexDigitChar d) = some d := by
  by_cases h10 : d < 10
  · have ht : (hexDigitChar d).toNat = 48 + d := by
      simp only [hexDigitChar, if_pos h10]
      exact toNat_ofNat_small _ (by omega)
    rw [hexVal, ht, if_pos (by omega : 48 ≤ 48 + d ∧ 48 + d ≤ 57)]
    congr 1
    omega
  · have ht : (hexDigitChar d).toNat = 87 + d := by
      simp only [hexDigitChar, if_neg h10]
      exact toNat_ofNat_small _ (by omega)
    rw [hexVal, ht, if_neg (by omega : ¬(48 ≤ 87 + d ∧ 87 + d ≤ 57)),
      if_pos (by omega : 97 ≤ 87 + d ∧ 87 + d ≤ 102)]
    congr 1
    omega

theorem parseHex4_hex4 (n : Nat) (h : n < 65536) (rest : List Char) :
    parseHex4 (hex4 n ++ rest) = some (n, rest) := by
  have h1 := hexVal_hexDigitChar (n / 4096 % 16) (Nat.mod_lt _ (by omega))
  have h2 := hexVal_hexDigitChar (n / 256 % 16) (Nat.mod_lt _ (by omega))
  have h3 := hexVal_hexDigitChar (n / 16 % 16) (Nat.mod_lt _ (by omega))
  have h4 := hexVal_hexDigitChar (n % 16) (Nat.mod_lt _ (by omega))
  simp only [hex4, List.cons_append, List.nil_append, parseHex4, h1, h2, h3, h4]
  have : ((n / 4096 % 16 * 16 + n / 256 % 16) * 16 + n / 16 % 16) * 16 + n % 16 = n := by
    omega
  rw [this]

theorem isDigitChar_toNat {c : Char} (h : isDigitChar c = true) :
    48 ≤ c.toNat ∧ c.toNat ≤ 57 := by
  simp only [isDigitChar, Bool.and_eq_true, decide_eq_true_eq] at h
  exact h

theorem natToDigits_ne_nil (n : Nat) : natToDigits n ≠ [] := by
  rw [natToDigits]
  by_cases h : n < 10
  · simp [h]
  · simp [h]

theorem natToDigits_all_digits (n : Nat) : ∀ c ∈ natToDigits n, isDigitChar c = true := by
  induction n using Nat.strong_induction_on with
  | _ n ih =>
    rw [natToDigits]
    by_cases h : n < 10
    · simp only [if_pos h, List.mem_singleton]
      rintro c rfl
      have ht : (Char.ofNat (48 + n)).toNat = 48 + n := toNat_ofNat_small _ (by omega)
      simp [isDigitChar, ht]
      omega
    · simp only [if_neg h, List.mem_append, List.mem_singleton]
      rintro c (hc | rfl)
      · exact ih (n / 10) (Nat.div_lt_self (by omega) (by omega)) c hc
      · have ht : (Char.ofNat (48 + n % 10)).toNat = 48 + n % 10 :=
          toNat_ofNat_small _ (by omega)
        simp [isDigitChar, ht]
        omega

theorem parseDigitsAux_append (ds : List Char) :
    ∀ (acc : Nat) (rest : List Char),
    (∀ c ∈ ds, isDigitChar c = true) →
    (∀ c cs, rest = c :: cs → isDigitChar c = false) →
    parseDigitsAux acc (ds ++ rest) =
      (ds.foldl (fun a c => a * 10 + (c.toNat - 48)) acc, rest) := by
  induction ds with
  | nil =>
      intro acc rest _ hrest
      match rest with
      | [] => rfl
      | c :: cs => simp [parseDigitsAux, hrest c cs rfl]
  | cons d ds ih =>
      intro acc rest hds hrest
      simp only [List.cons_append, parseDigitsAux, hds d (by simp), if_true,
        List.foldl_cons]
      exact ih _ rest (fun c hc => hds c (by simp [hc])) hrest

theorem natToDigits_foldl (n : Nat) :
    (natToDigits n).foldl (fun a c => a * 10 + (c.toNat - 48)) 0 = n := by
  suffices h : ∀ m acc, (natToDigits m).foldl (fun a c => a * 10 + (c.toNat - 48)) acc =
      acc * 10 ^ (natToDigits m).length + m by
    simpa using h n 0
  intro m
  induction m using Nat.strong_induction_on with
  | _ m ih =>
    intro acc
    rw [natToDigits]
    by_cases h : m < 10
    · have ht : (Char.ofNat (48 + m)).toNat = 48 + m := toNat_ofNat_small _ (by omega)
      rw [if_pos h]
      simp only [List.foldl_cons, List.foldl_nil, List.length_cons, List.length_nil,
        zero_add, pow_one, ht]
      omega
    · have ht : (Char.ofNat (48 + m % 10)).toNat = 48 + m % 10 :=
        toNat_ofNat_small _ (by omega)
      simp only [if_neg h, List.foldl_append, List.foldl_cons, List.foldl_nil,
        List.length_append, List.length_cons, List.length_nil]
      rw [ih (m / 10) (Nat.div_lt_self (by omega) (by omega)) acc]
      have : acc * 10 ^ ((natToDigits (m / 10)).length + (0 + 1)) =
          acc * 10 ^ (natToDigits (m / 10)).length * 10 := by
        rw [pow_succ]
        ring
      rw [this, ht]
      omega

theorem parseNat_natToDigits (n : Nat) (rest : List Char)
    (hrest : ∀ c cs, rest = c :: cs → isDigitChar c = false) :
    parseNat (natToDigits n ++ rest) = some (n, rest) := by
  obtain ⟨d, ds, hds⟩ : ∃ d ds, natToDigits n = d :: ds := by
    match h : natToDigits n with
    | [] => exact absurd h (natToDigits_ne_nil n)
    | d :: ds => exact ⟨d, ds, rfl⟩
  have hd : isDigitChar d = true := natToDigits_all_digits n d (by rw [hds]; simp)
  rw [hds, List.cons_append, parseNat]
  simp only [hd, if_true]
  rw [← List.cons_append, ← hds,
    parseDigitsAux_append _ 0 rest (natToDigits_all_digits n) hrest,
    natToDigits_foldl]

theorem parseIntTok_intRender (n : Int) (rest : List Char)
    (hrest : ∀ c cs, rest = c :: cs → isDigitChar c = false) :
    parseIntTok (intRender n ++ rest) = some (n, rest) := by
  by_cases h : n < 0
  · simp only [intRender, if_pos h, List.cons_append]
    rw [parseIntTok, if_pos rfl, parseNat_natToDigits _ _ hrest]
    simp only [Option.map]
    have : -(n.natAbs : Int) = n := by omega
    rw [this]
  · have hd : ∃ d ds, natToDigits n.toNat = d :: ds ∧ isDigitChar d = true := by
      match hds : natToDigits n.toNat with
      | [] => exact absurd hds (natToDigits_ne_nil _)
      | d :: ds =>
          exact ⟨d, ds, rfl, natToDigits_all_digits n.toNat d (by rw [hds]; simp)⟩
    obtain ⟨d, ds, hds, hdig⟩ := hd
    have hne : d ≠ '-' := by
      apply char_ne_of_toNat_ne
      have := isDigitChar_toNat hdig
      have : ('-' : Char).toNat = 45 := by decide
      omega
    simp only [intRender, if_neg h, hds, List.cons_append]
    rw [parseIntTok, if_neg hne, ← List.cons_append, ← hds,
      parseNat_natToDigits _ _ hrest]
    simp only [Option.map]
    have : ((n.toNat : Nat) : Int) = n := Int.toNat_of_nonneg (by omega)
    rw [this]

/-! ## Serialiser/decoder correctness: string bodies -/

theorem parseStrBody_escapeChar (c : Char) (f : Nat) (t : List Char) :
    parseStrBody (f + 1) (escapeChar c ++ t) =
      (parseStrBody f t).map (fun p => (c :: p.1, p.2)) := by
  by_cases h1 : c = '"'
  · subst h1
    simp [escapeChar, parseStrBody]
  by_cases h2 : c = '\\'
  · subst h2
    simp [escapeChar, parseStrBody]
  by_cases h3 : c.toNat = 8
  · have hofn : Char.ofNat 8 = c := by rw [← h3, Char.ofNat_toNat]
    simp only [escapeChar, if_neg h1, if_neg h2, if_pos h3, List.cons_append,
      List.nil_append]
    rw [parseStrBody]
    simp
    rw [hofn]
  by_cases h4 : c.toNat = 9
  · have hofn : Char.ofNat 9 = c := by rw [← h4, Char.ofNat_toNat]
    simp only [escapeChar, if_neg h1, if_neg h2, if_neg h3, if_pos h4,
      List.cons_append, List.nil_append]
    rw [parseStrBody]
    simp
    rw [hofn]
  by_cases h5 : c.toNat = 10
  · have hofn : Char.ofNat 10 = c := by rw [← h5, Char.ofNat_toNat]
    simp only [escapeChar, if_neg h1, if_neg h2, if_neg h3, if_neg h4, if_pos h5,
      List.cons_append, List.nil_append]
    rw [parseStrBody]
    simp
    rw [hofn]
  by_cases h6 : c.toNat = 12
  · have hofn : Char.ofNat 12 = c := by rw [← h6, Char.ofNat_toNat]
    simp only [escapeChar, if_neg h1, if_neg h2, if_neg h3, if_neg h4, if_neg h5,
      if_pos h6, List.cons_append, List.nil_append]
    rw [parseStrBody]
    simp
    rw [hofn]
  by_cases h7 : c.toNat = 13
  · have hofn : Char.ofNat 13 = c := by rw [← h7, Char.ofNat_toNat]
    simp only [escapeChar, if_neg h1, if_neg h2, if_neg h3, if_neg h4, if_neg h5,
      if_neg h6, if_pos h7, List.cons_append, List.nil_append]
    rw [parseStrBody]
    simp
    rw [hofn]
  by_cases h8 : c.toNat < 32 ∨ 126 < c.toNat
  · by_cases h9 : c.toNat < 65536
    · have hval := char_toNat_valid c
      have hns : ¬(55296 ≤ c.toNat ∧ c.toNat ≤ 56319) := by omega
      have hofn : Char.ofNat c.toNat = c := Char.ofNat_toNat c
      simp only [escapeChar, if_neg h1, if_neg h2, if_neg h3, if_neg h4, if_neg h5,
        if_neg h6, if_neg h7, if_pos h8, if_pos h9, List.cons_append]
      rw [parseStrBody, parseHex4_hex4 _ h9]
      simp [hns]
    · have hval := char_toNat_valid c
      have hge : 65536 ≤ c.toNat := by omega
      have hlt : c.toNat < 1114112 := by omega
      have hhi : 55296 + (c.toNat - 65536) / 1024 < 65536 := by omega
      have hlo : 56320 + (c.toNat - 65536) % 1024 < 65536 := by
        have := Nat.mod_lt (c.toNat - 65536) (y := 1024) (by omega)
        omega
      have hhir : 55296 ≤ 55296 + (c.toNat - 65536) / 1024 ∧
          55296 + (c.toNat - 65536) / 1024 ≤ 56319 := by omega
      have hlor : 56320 ≤ 56320 + (c.toNat - 65536) % 1024 ∧
          56320 + (c.toNat - 65536) % 1024 ≤ 57343 := by
        have := Nat.mod_lt (c.toNat - 65536) (y := 1024) (by omega)
        omega
      have hrecon : 65536 + (55296 + (c.toNat - 65536) / 1024 - 55296) * 1024 +
          (56320 + (c.toNat - 65536) % 1024 - 56320) = c.toNat := by
        have := Nat.div_add_mod (c.toNat - 65536) 1024
        omega
      have hofn : Char.ofNat c.toNat = c := Char.ofNat_toNat c
      simp only [escapeChar, if_neg h1, if_neg h2, if_neg h3, if_neg h4, if_neg h5,
        if_neg h6, if_neg h7, if_pos h8, if_neg h9, List.cons_append,
        List.append_assoc]
      rw [parseStrBody]
      simp only [List.cons_append, List.append_assoc]
      rw [parseHex4_hex4 _ hhi]
      simp [hhir]
      rw [parseHex4_hex4 _ hlo]
      simp [hlor]
      have hrecon2 : 65536 + (c.toNat - 65536) / 1024 * 1024 + (c.toNat - 65536) % 1024 =
          c.toNat := by
        have := Nat.div_add_mod (c.toNat - 65536) 1024
        omega
      rw [hrecon2, hofn]
  · have hpass : escapeChar c = [c] := by
      simp only [escapeChar, if_neg h1, if_neg h2, if_neg h3, if_neg h4, if_neg h5,
        if_neg h6, if_neg h7, if_neg h8]
    rw [hpass, List.cons_append, List.nil_append]
    simp only [parseStrBody, if_neg h1, if_neg h2]

theorem parseStrBody_escapeStr :
    ∀ (s : List Char) (fuel : Nat) (rest : List Char), s.length < fuel →
    parseStrBody fuel (escapeStr s ++ ('"' :: rest)) = some (s, rest) := by
  intro s
  induction s with
  | nil =>
      intro fuel rest hf
      match fuel, hf with
      | f + 1, _ => simp [escapeStr, parseStrBody]
  | cons c cs ih =>
      intro fuel rest hf
      match fuel, hf with
      | f + 1, hf =>
          have hcs : cs.length < f := by
            simp only [List.length_cons] at hf
            omega
          rw [escapeStr, List.append_assoc, parseStrBody_escapeChar,
            ih f rest hcs]
          rfl

/-! ## Serialiser/decoder correctness: dispatch and whitespace -/

theorem skipWs_cons_not_ws {c : Char} (cs : List Char) (h : isWsChar c = false) :
    skipWs (c :: cs) = c :: cs := by
  simp [skipWs, h]

theorem parseVal_ws (fuel : Nat) (t : List Char) :
    parseVal fuel (' ' :: t) = parseVal fuel t := by
  match fuel with
  | 0 => rfl
  | f + 1 =>
      rw [parseVal, parseVal]
      rw [show skipWs (' ' :: t) = skipWs t by simp [skipWs, isWsChar]]

theorem parseItems_ws (fuel : Nat) (t : List Char) :
    parseItems fuel (' ' :: t) = parseItems fuel t := by
  match fuel with
  | 0 => rfl
  | f + 1 =>
      rw [parseItems, parseItems, parseVal_ws]

theorem parsePairs_ws (fuel : Nat) (t : List Char) :
    parsePairs fuel (' ' :: t) = parsePairs fuel t := by
  match fuel with
  | 0 => rfl
  | f + 1 =>
      rw [parsePairs, parsePairs]
      rw [show skipWs (' ' :: t) = skipWs t by simp [skipWs, isWsChar]]

theorem isWsChar_eq_false {d : Char} (h1 : d.toNat ≠ 32) (h2 : d.toNat ≠ 9)
    (h3 : d.toNat ≠ 10) (h4 : d.toNat ≠ 13) : isWsChar d = false := by
  have hsp : d ≠ ' ' := char_ne_of_toNat_ne
    (by simp only [show (' ' : Char).toNat = 32 from by decide]; exact h1)
  simp only [isWsChar, Bool.or_eq_false_iff, decide_eq_false_iff_not]
  exact ⟨⟨⟨hsp, h2⟩, h3⟩, h4⟩

theorem sepOk_not_digit {rest : List Char} (h : sepOk rest = true) :
    ∀ c cs, rest = c :: cs → isDigitChar c = false := by
  rintro c cs rfl
  simp only [sepOk, Bool.or_eq_true, decide_eq_true_eq] at h
  rcases h with (h | h) | h <;> subst h <;> decide

/-- The first character of every rendered value: a keyword initial, a
quote, an opening bracket or brace, a minus sign, or a digit. -/
theorem render_cons_facts (v : PyVal) :
    ∃ c cs, render v = c :: cs ∧ isWsChar c = false ∧ c ≠ ']' ∧ c ≠ rbrace := by
  have hdig : ∀ d : Char, isDigitChar d = true →
      isWsChar d = false ∧ d ≠ ']' ∧ d ≠ rbrace := by
    intro d hd
    have hb := isDigitChar_toNat hd
    refine ⟨isWsChar_eq_false (by omega) (by omega) (by omega) (by omega),
      char_ne_of_toNat_ne
        (by simp only [show (']' : Char).toNat = 93 from by decide]; omega),
      char_ne_of_toNat_ne
        (by simp only [show rbrace.toNat = 125 from by decide]; omega)⟩
  match v with
  | .pnone => exact ⟨'n', _, rfl, by decide, by decide, by decide⟩
  | .pbool true => exact ⟨'t', _, rfl, by decide, by decide, by decide⟩
  | .pbool false => exact ⟨'f', _, rfl, by decide, by decide, by decide⟩
  | .pstr s => exact ⟨'"', _, rfl, by decide, by decide, by decide⟩
  | .plist xs => exact ⟨'[', _, rfl, by decide, by decide, by decide⟩
  | .ptuple xs => exact ⟨'[', _, rfl, by decide, by decide, by decide⟩
  | .pdict kvs => exact ⟨lbrace, _, rfl, by decide, by decide, by decide⟩
  | .pint n =>
      by_cases h : n < 0
      · refine ⟨'-', natToDigits n.natAbs, ?_, by decide, by decide, by decide⟩
        simp [render, intRender, h]
      · obtain ⟨d, ds, hds⟩ : ∃ d ds, natToDigits n.toNat = d :: ds := by
          match hds : natToDigits n.toNat with
          | [] => exact absurd hds (natToDigits_ne_nil _)
          | d :: ds => exact ⟨d, ds, rfl⟩
        have hd : isDigitChar d = true := natToDigits_all_digits _ d (by rw [hds]; simp)
        obtain ⟨hw, hr1, hr2⟩ := hdig d hd
        refine ⟨d, ds, ?_, hw, hr1, hr2⟩
        simp [render, intRender, h, hds]

/-- Dispatch of `parseVal` lands on the number branch for a rendered
integer. -/
theorem parseVal_int (f : Nat) (n : Int) (rest : List Char) (hr : sepOk rest = true) :
    parseVal (f + 1) (intRender n ++ rest) = some (.pint n, rest) := by
  have hd : ∃ d ds, intRender n = d :: ds ∧ (d = '-' ∨ isDigitChar d = true) := by
    by_cases h : n < 0
    · exact ⟨'-', natToDigits n.natAbs, by simp [intRender, h], Or.inl rfl⟩
    · obtain ⟨d, ds, hds⟩ : ∃ d ds, natToDigits n.toNat = d :: ds := by
        match hds : natToDigits n.toNat with
        | [] => exact absurd hds (natToDigits_ne_nil _)
        | d :: ds => exact ⟨d, ds, rfl⟩
      exact ⟨d, ds, by simp [intRender, h, hds],
        Or.inr (natToDigits_all_digits _ d (by rw [hds]; simp))⟩
  obtain ⟨d, ds, hds, hdc⟩ := hd
  have htn : d.toNat = 45 ∨ (48 ≤ d.toNat ∧ d.toNat ≤ 57) := by
    rcases hdc with h | h
    · left; subst h; decide
    · right; exact isDigitChar_toNat h
  have hnws : isWsChar d = false :=
    isWsChar_eq_false (by omega) (by omega) (by omega) (by omega)
  have h1 : d ≠ 'n' := char_ne_of_toNat_ne
    (by simp only [show ('n' : Char).toNat = 110 from by decide]; omega)
  have h2 : d ≠ 't' := char_ne_of_toNat_ne
    (by simp only [show ('t' : Char).toNat = 116 from by decide]; omega)
  have h3 : d ≠ 'f' := char_ne_of_toNat_ne
    (by simp only [show ('f' : Char).toNat = 102 from by decide]; omega)
  have h4 : d ≠ '"' := char_ne_of_toNat_ne
    (by simp only [show ('"' : Char).toNat = 34 from by decide]; omega)
  have h5 : d ≠ '[' := char_ne_of_toNat_ne
    (by simp only [show ('[' : Char).toNat = 91 from by decide]; omega)
  have h6 : d ≠ lbrace := char_ne_of_toNat_ne
    (by simp only [show lbrace.toNat = 123 from by decide]; omega)
  rw [parseVal, hds, List.cons_append, skipWs_cons_not_ws _ hnws]
  simp only [if_neg h1, if_neg h2, if_neg h3, if_neg h4, if_neg h5, if_neg h6]
  rw [← List.cons_append, ← hds, parseIntTok_intRender n rest (sepOk_not_digit hr)]
  rfl

/-! ## Serialiser/decoder correctness: sizes -/

theorem escapeChar_length_pos (c : Char) : 1 ≤ (escapeChar c).length := by
  simp only [escapeChar]
  split_ifs <;> simp [hex4]

theorem escapeStr_length_ge (s : List Char) : s.length ≤ (escapeStr s).length := by
  induction s with
  | nil => simp [escapeStr]
  | cons c cs ih =>
      have := escapeChar_length_pos c
      simp only [escapeStr, List.length_append, List.length_cons]
      omega

theorem sizeP_pos (v : PyVal) : 1 ≤ sizeP v := by
  cases v with
  | pstr s => simp [sizeP]
  | plist xs => cases xs <;> simp [sizeP]
  | ptuple xs => cases xs <;> simp [sizeP]
  | pdict kvs => cases kvs <;> simp [sizeP]
  | _ => simp [sizeP]

theorem render_length_pos (v : PyVal) : 1 ≤ (render v).length := by
  obtain ⟨c, cs, hc, -⟩ := render_cons_facts v
  simp [hc]

theorem renderItems_cons_facts (v : PyVal) (vs : PyList) :
    ∃ c cs, renderItems (.cons v vs) = c :: cs ∧ isWsChar c = false ∧ c ≠ ']' := by
  obtain ⟨c, cs, hc, hw, hne, -⟩ := render_cons_facts v
  cases vs with
  | nil => exact ⟨c, cs, by simp [renderItems, hc], hw, hne⟩
  | cons w ws =>
      exact ⟨c, cs ++ (',' :: ' ' :: renderItems (.cons w ws)),
        by simp [renderItems, hc], hw, hne⟩

theorem renderPairs_cons (k : List Char) (v : PyVal) (r : PyDict) :
    ∃ t, renderPairs (.dcons k v r) = '"' :: t := by
  cases r with
  | dnil =>
      exact ⟨(escapeStr k ++ ['"']) ++ (':' :: ' ' :: render v),
        by rw [renderPairs, List.cons_append]⟩
  | dcons k2 w r2 =>
      exact ⟨((escapeStr k ++ ['"']) ++ (':' :: ' ' :: render v)) ++
          (',' :: ' ' :: renderPairs (.dcons k2 w r2)),
        by rw [renderPairs, List.cons_append, List.cons_append]⟩

mutual

theorem sizeP_le_render : (v : PyVal) → sizeP v ≤ (render v).length + 1
  | .pnone => by simp [sizeP, render]
  | .pbool b => by cases b <;> simp [sizeP, render]
  | .pint n => by
      simp only [sizeP]
      omega
  | .pstr s => by
      have := escapeStr_length_ge s
      simp only [sizeP, render, List.length_cons, List.length_append,
        List.length_singleton]
      omega
  | .plist .nil => by simp [sizeP, render, renderItems]
  | .plist (.cons v vs) => by
      have h := sizeL_le_renderItems v vs
      simp only [sizeP, render, List.length_cons, List.length_append,
        List.length_singleton]
      omega
  | .ptuple .nil => by simp [sizeP, render, renderItems]
  | .ptuple (.cons v vs) => by
      have h := sizeL_le_renderItems v vs
      simp only [sizeP, render, List.length_cons, List.length_append,
        List.length_singleton]
      omega
  | .pdict .dnil => by simp [sizeP, render, renderPairs]
  | .pdict (.dcons k v r) => by
      have h := sizeD_le_renderPairs k v r
      simp only [sizeP, render, List.length_cons, List.length_append,
        List.length_singleton]
      omega
termination_by v => sizeOf v

theorem sizeL_le_renderItems : (v : PyVal) → (vs : PyList) →
    sizeL (.cons v vs) ≤ (renderItems (.cons v vs)).length + 2
  | v, .nil => by
      have h := sizeP_le_render v
      simp only [sizeL, renderItems]
      omega
  | v, .cons w ws => by
      have h1 := sizeP_le_render v
      have h2 := sizeL_le_renderItems w ws
      have h3 := render_length_pos v
      simp only [sizeL] at h2
      simp only [sizeL, renderItems, List.length_append, List.length_cons]
      omega
termination_by v vs => sizeOf (PyList.cons v vs)

theorem sizeD_le_renderPairs : (k : List Char) → (v : PyVal) → (r : PyDict) →
    sizeD (.dcons k v r) ≤ (renderPairs (.dcons k v r)).length + 2
  | k, v, .dnil => by
      have h := sizeP_le_render v
      have hk := escapeStr_length_ge k
      simp only [sizeD, renderPairs, List.length_append, List.length_cons,
        List.length_singleton]
      omega
  | k, v, .dcons k2 w r2 => by
      have h1 := sizeP_le_render v
      have h2 := sizeD_le_renderPairs k2 w r2
      have hk := escapeStr_length_ge k
      simp only [sizeD] at h2
      simp only [sizeD, renderPairs, List.length_append, List.length_cons,
        List.length_singleton]
      omega
termination_by k v r => sizeOf (PyDict.dcons k v r)

end

/-! ## Serialiser/decoder correctness: main roundtrip -/

mutual

theorem parseVal_render : (v : PyVal) → (fuel : Nat) → (rest : List Char) →
    sizeP v ≤ fuel → sepOk rest = true →
    parseVal fuel (render v ++ rest) = some (toLoads v, rest)
  | v, 0, _, hf, _ => absurd (le_trans (sizeP_pos v) hf) (by decide)
  | .pnone, f + 1, rest, _, _ => by
      simp [render, parseVal, skipWs, isWsChar, expectLit, toLoads]
  | .pbool true, f + 1, rest, _, _ => by
      simp [render, parseVal, skipWs, isWsChar, expectLit, toLoads]
  | .pbool false, f + 1, rest, _, _ => by
      simp [render, parseVal, skipWs, isWsChar, expectLit, toLoads]
  | .pint n, f + 1, rest, _, hr => by
      simpa [render, toLoads] using parseVal_int f n rest hr
  | .pstr s, f + 1, rest, hf, _ => by
      have hs : s.length < f := by simp only [sizeP] at hf; omega
      have hsk : skipWs ('"' :: ((escapeStr s ++ ['"']) ++ rest)) =
          '"' :: ((escapeStr s ++ ['"']) ++ rest) :=
        skipWs_cons_not_ws _ (by decide)
      rw [render, List.cons_append, parseVal]
      simp only [hsk, if_neg (by decide : ¬('"' : Char) = 'n'),
        if_neg (by decide : ¬('"' : Char) = 't'),
        if_neg (by decide : ¬('"' : Char) = 'f'), if_pos rfl]
      rw [List.append_assoc, List.singleton_append, parseStrBody_escapeStr s f rest hs]
      rfl
  | .plist .nil, f + 1, rest, _, _ => by
      have hsk : skipWs (']' :: rest) = ']' :: rest := skipWs_cons_not_ws _ (by decide)
      rw [render, renderItems, List.cons_append, parseVal]
      have hsk0 : skipWs ('[' :: (([] ++ [']']) ++ rest)) =
          '[' :: (([] ++ [']']) ++ rest) := skipWs_cons_not_ws _ (by decide)
      simp only [hsk0, if_neg (by decide : ¬('[' : Char) = 'n'),
        if_neg (by decide : ¬('[' : Char) = 't'),
        if_neg (by decide : ¬('[' : Char) = 'f'),
        if_neg (by decide : ¬('[' : Char) = '"'), if_pos rfl,
        List.nil_append, List.singleton_append, hsk, if_pos rfl]
      rfl
  | .plist (.cons v vs), f + 1, rest, hf, _ => by
      have hL : sizeL (.cons v vs) ≤ f := by simp only [sizeP] at hf; omega
      obtain ⟨c, cs, hc, hw, hne⟩ := renderItems_cons_facts v vs
      have hitems := parseItems_render v vs f rest hL
      have hshape : (renderItems (.cons v vs) ++ [']']) ++ rest =
          c :: (cs ++ (']' :: rest)) := by
        rw [hc]
        simp
      have hsk0 : skipWs ('[' :: (c :: (cs ++ (']' :: rest)))) =
          '[' :: (c :: (cs ++ (']' :: rest))) := skipWs_cons_not_ws _ (by decide)
      have hsk : skipWs (c :: (cs ++ (']' :: rest))) = c :: (cs ++ (']' :: rest)) :=
        skipWs_cons_not_ws _ hw
      rw [render, List.cons_append, parseVal, hshape]
      simp only [hsk0, if_neg (by decide : ¬('[' : Char) = 'n'),
        if_neg (by decide : ¬('[' : Char) = 't'),
        if_neg (by decide : ¬('[' : Char) = 'f'),
        if_neg (by decide : ¬('[' : Char) = '"'), if_pos rfl, hsk, if_neg hne]
      rw [show c :: (cs ++ (']' :: rest)) = renderItems (.cons v vs) ++ (']' :: rest) by
        rw [hc]; simp]
      rw [hitems]
      rfl
  | .ptuple .nil, f + 1, rest, _, _ => by
      have hsk : skipWs (']' :: rest) = ']' :: rest := skipWs_cons_not_ws _ (by decide)
      rw [render, renderItems, List.cons_append, parseVal]
      have hsk0 : skipWs ('[' :: (([] ++ [']']) ++ rest)) =
          '[' :: (([] ++ [']']) ++ rest) := skipWs_cons_not_ws _ (by decide)
      simp only [hsk0, if_neg (by decide : ¬('[' : Char) = 'n'),
        if_neg (by decide : ¬('[' : Char) = 't'),
        if_neg (by decide : ¬('[' : Char) = 'f'),
        if_neg (by decide : ¬('[' : Char) = '"'), if_pos rfl,
        List.nil_append, List.singleton_append, hsk, if_pos rfl]
      rfl
  | .ptuple (.cons v vs), f + 1, rest, hf, _ => by
      have hL : sizeL (.cons v vs) ≤ f := by simp only [sizeP] at hf; omega
      obtain ⟨c, cs, hc, hw, hne⟩ := renderItems_cons_facts v vs
      have hitems := parseItems_render v vs f rest hL
      have hshape : (renderItems (.cons v vs) ++ [']']) ++ rest =
          c :: (cs ++ (']' :: rest)) := by
        rw [hc]
        simp
      have hsk0 : skipWs ('[' :: (c :: (cs ++ (']' :: rest)))) =
          '[' :: (c :: (cs ++ (']' :: rest))) := skipWs_cons_not_ws _ (by decide)
      have hsk : skipWs (c :: (cs ++ (']' :: rest))) = c :: (cs ++ (']' :: rest)) :=
        skipWs_cons_not_ws _ hw
      rw [render, List.cons_append, parseVal, hshape]
      simp only [hsk0, if_neg (by decide : ¬('[' : Char) = 'n'),
        if_neg (by decide : ¬('[' : Char) = 't'),
        if_neg (by decide : ¬('[' : Char) = 'f'),
        if_neg (by decide : ¬('[' : Char) = '"'), if_pos rfl, hsk, if_neg hne]
      rw [show c :: (cs ++ (']' :: rest)) = renderItems (.cons v vs) ++ (']' :: rest) by
        rw [hc]; simp]
      rw [hitems]
      rfl
  | .pdict .dnil, f + 1, rest, _, _ => by
      have hsk : skipWs (rbrace :: rest) = rbrace :: rest :=
        skipWs_cons_not_ws _ (by decide)
      rw [render, renderPairs, List.cons_append, parseVal]
      have hsk0 : skipWs (lbrace :: (([] ++ [rbrace]) ++ rest)) =
          lbrace :: (([] ++ [rbrace]) ++ rest) := skipWs_cons_not_ws _ (by decide)
      simp only [hsk0, if_neg (by decide : ¬lbrace = 'n'),
        if_neg (by decide : ¬lbrace = 't'), if_neg (by decide : ¬lbrace = 'f'),
        if_neg (by decide : ¬lbrace = '"'), if_neg (by decide : ¬lbrace = '['),
        if_pos rfl, List.nil_append, List.singleton_append, hsk]
      rfl
  | .pdict (.dcons k v r), f + 1, rest, hf, _ => by
      have hD : sizeD (.dcons k v r) ≤ f := by simp only [sizeP] at hf; omega
      obtain ⟨t, ht⟩ := renderPairs_cons k v r
      have hpairs := parsePairs_render k v r f rest hD
      have hshape : (renderPairs (.dcons k v r) ++ [rbrace]) ++ rest =
          '"' :: (t ++ (rbrace :: rest)) := by
        rw [ht]
        simp
      have hsk0 : skipWs (lbrace :: ('"' :: (t ++ (rbrace :: rest)))) =
          lbrace :: ('"' :: (t ++ (rbrace :: rest))) := skipWs_cons_not_ws _ (by decide)
      have hsk : skipWs ('"' :: (t ++ (rbrace :: rest))) =
          '"' :: (t ++ (rbrace :: rest)) := skipWs_cons_not_ws _ (by decide)
      rw [render, List.cons_append, parseVal, hshape]
      simp only [hsk0, if_neg (by decide : ¬lbrace = 'n'),
        if_neg (by decide : ¬lbrace = 't'), if_neg (by decide : ¬lbrace = 'f'),
        if_neg (by decide : ¬lbrace = '"'), if_neg (by decide : ¬lbrace = '['),
        if_pos rfl, hsk, if_neg (by decide : ¬('"' : Char) = rbrace)]
      rw [show '"' :: (t ++ (rbrace :: rest)) =
          renderPairs (.dcons k v r) ++ (rbrace :: rest) by rw [ht]; simp]
      rw [hpairs]
      rfl
termination_by v => sizeOf v

theorem parseItems_render : (v : PyVal) → (vs : PyList) → (fuel : Nat) →
    (rest : List Char) → sizeL (.cons v vs) ≤ fuel →
    parseItems fuel (renderItems (.cons v vs) ++ (']' :: rest)) =
      some (toLoadsL (.cons v vs), rest)
  | v, vs, 0, _, hf => by
      exfalso
      simp only [sizeL] at hf
      omega
  | v, .nil, f + 1, rest, hf => by
      have hv : sizeP v ≤ f := by simp only [sizeL] at hf; omega
      have hsk : skipWs (']' :: rest) = ']' :: rest := skipWs_cons_not_ws _ (by decide)
      rw [renderItems, parseItems, parseVal_render v f (']' :: rest) hv (by rfl)]
      simp only [hsk, if_neg (by decide : ¬(']' : Char) = ','), if_pos rfl]
      rfl
  | v, .cons w ws, f + 1, rest, hf => by
      have hv : sizeP v ≤ f := by simp only [sizeL] at hf; omega
      have hws : sizeL (.cons w ws) ≤ f := by
        simp only [sizeL] at hf ⊢
        omega
      have hsk : skipWs (',' :: ' ' :: (renderItems (.cons w ws) ++ (']' :: rest))) =
          ',' :: ' ' :: (renderItems (.cons w ws) ++ (']' :: rest)) :=
        skipWs_cons_not_ws _ (by decide)
      rw [renderItems, parseItems]
      simp only [List.append_assoc, List.cons_append]
      rw [parseVal_render v f
        (',' :: ' ' :: (renderItems (.cons w ws) ++ (']' :: rest))) hv (by rfl)]
      simp only [hsk, if_pos rfl]
      rw [parseItems_ws, parseItems_render w ws f rest hws]
      rfl
termination_by v vs => sizeOf (PyList.cons v vs)

theorem parsePairs_render : (k : List Char) → (v : PyVal) → (r : PyDict) →
    (fuel : Nat) → (rest : List Char) → sizeD (.dcons k v r) ≤ fuel →
    parsePairs fuel (renderPairs (.dcons k v r) ++ (rbrace :: rest)) =
      some (toLoadsD (.dcons k v r), rest)
  | k, v, r, 0, _, hf => by
      exfalso
      simp only [sizeD] at hf
      omega
  | k, v, .dnil, f + 1, rest, hf => by
      have hk : k.length < f := by simp only [sizeD] at hf; omega
      have hv : sizeP v ≤ f := by simp only [sizeD] at hf; omega
      have hsk : skipWs ('"' :: (escapeStr k ++
          ('"' :: (':' :: ' ' :: (render v ++ (rbrace :: rest)))))) =
          '"' :: (escapeStr k ++ ('"' :: (':' :: ' ' :: (render v ++ (rbrace :: rest))))) :=
        skipWs_cons_not_ws _ (by decide)
      have hsk2 : skipWs (':' :: ' ' :: (render v ++ (rbrace :: rest))) =
          ':' :: ' ' :: (render v ++ (rbrace :: rest)) :=
        skipWs_cons_not_ws _ (by decide)
      have hsk3 : skipWs (rbrace :: rest) = rbrace :: rest :=
        skipWs_cons_not_ws _ (by decide)
      rw [renderPairs, parsePairs]
      simp only [List.cons_append, List.append_assoc, List.singleton_append,
        List.nil_append]
      simp only [hsk, if_pos rfl]
      rw [parseStrBody_escapeStr k f _ hk]
      simp only [hsk2, if_pos rfl]
      rw [parseVal_ws, parseVal_render v f (rbrace :: rest) hv (by rfl)]
      simp only [hsk3, if_neg (by decide : ¬rbrace = ','), if_pos rfl]
      rfl
  | k, v, .dcons k2 w r2, f + 1, rest, hf => by
      have hk : k.length < f := by simp only [sizeD] at hf; omega
      have hv : sizeP v ≤ f := by simp only [sizeD] at hf; omega
      have hr2 : sizeD (.dcons k2 w r2) ≤ f := by
        simp only [sizeD] at hf ⊢
        omega
      have hsk : skipWs ('"' :: (escapeStr k ++ ('"' :: (':' :: ' ' ::
          (render v ++ (',' :: ' ' :: (renderPairs (.dcons k2 w r2) ++
            (rbrace :: rest)))))))) =
          '"' :: (escapeStr k ++ ('"' :: (':' :: ' ' ::
          (render v ++ (',' :: ' ' :: (renderPairs (.dcons k2 w r2) ++
            (rbrace :: rest))))))) :=
        skipWs_cons_not_ws _ (by decide)
      have hsk2 : skipWs (':' :: ' ' :: (render v ++ (',' :: ' ' ::
          (renderPairs (.dcons k2 w r2) ++ (rbrace :: rest))))) =
          ':' :: ' ' :: (render v ++ (',' :: ' ' ::
          (renderPairs (.dcons k2 w r2) ++ (rbrace :: rest)))) :=
        skipWs_cons_not_ws _ (by decide)
      have hsk3 : skipWs (',' :: ' ' :: (renderPairs (.dcons k2 w r2) ++
          (rbrace :: rest))) =
          ',' :: ' ' :: (renderPairs (.dcons k2 w r2) ++ (rbrace :: rest)) :=
        skipWs_cons_not_ws _ (by decide)
      rw [renderPairs, parsePairs]
      simp only [List.cons_append, List.append_assoc, List.singleton_append,
        List.nil_append]
      simp only [hsk, if_pos rfl]
      rw [parseStrBody_escapeStr k f _ hk]
      simp only [hsk2, if_pos rfl]
      rw [parseVal_ws, parseVal_render v f _ hv (by rfl)]
      simp only [hsk3, if_pos rfl]
      rw [parsePairs_ws, parsePairs_render k2 w r2 f rest hr2]
      rfl
termination_by k v r => sizeOf (PyDict.dcons k v r)

end

theorem loads_render (v : PyVal) : loads (render v) = some (toLoads v) := by
  have h := parseVal_render v ((render v).length + 1) [] (sizeP_le_render v) (by rfl)
  rw [List.append_nil] at h
  rw [loads, h]
  simp [skipWs]

mutual

theorem toLoads_tupleFree : (v : PyVal) → tupleFree v = true → toLoads v = v
  | .pnone, _ => rfl
  | .pbool _, _ => rfl
  | .pint _, _ => rfl
  | .pstr _, _ => rfl
  | .plist xs, h => by
      rw [toLoads, toLoadsL_tupleFree xs (by simpa [tupleFree] using h)]
  | .ptuple _, h => by simp [tupleFree] at h
  | .pdict kvs, h => by
      rw [toLoads, toLoadsD_tupleFree kvs (by simpa [tupleFree] using h)]
termination_by v => sizeOf v

theorem toLoadsL_tupleFree : (xs : PyList) → tupleFreeL xs = true → toLoadsL xs = xs
  | .nil, _ => rfl
  | .cons v vs, h => by
      simp only [tupleFreeL, Bool.and_eq_true] at h
      rw [toLoadsL, toLoads_tupleFree v h.1, toLoadsL_tupleFree vs h.2]
termination_by xs => sizeOf xs

theorem toLoadsD_tupleFree : (kvs : PyDict) → tupleFreeD kvs = true → toLoadsD kvs = kvs
  | .dnil, _ => rfl
  | .dcons k v r, h => by
      simp only [tupleFreeD, Bool.and_eq_true] at h
      rw [toLoadsD, toLoads_tupleFree v h.1, toLoadsD_tupleFree r h.2]
termination_by kvs => sizeOf kvs

end

theorem storeGet_storeSet_self (store : Store) (k : RKey) (dv : List Char) (t : Nat) :
    storeGet (storeSet store k dv t) k = some dv := by
  simp [storeGet, storeSet, List.find?]

theorem render_ne_nil (v : PyVal) : ¬(render v = []) := by
  have := render_length_pos v
  intro h
  rw [h] at this
  simp at this

/-- C8 counterexample: the empty tuple `()` is accepted by `set`
(serialised as the JSON array `[]`) but `get` returns the empty *list*,
which is not structurally equal to the tuple — and a tuple is not in
the string-fallback carve-out, since it is JSON-encoded, not stringified. -/
theorem cache_tuple_roundtrip_breaks :
    RCache.get part5Cache
        (RCache.set part5Cache [] ['x'] (.ptuple .nil) none) ['x'] =
      some (.plist .nil) ∧
    (PyVal.plist .nil) ≠ (PyVal.ptuple .nil) := by
  constructor
  · rfl
  · decide

/-- C8 as amended: for every value of the JSON-representable universe,
`set` then `get` on the same key returns `toLoads` of the value — the
value itself whenever it contains no tuple, while any tuple inside is
read back as the corresponding list. -/
theorem cache_set_get_roundtrip (c : RCache) (store : Store) (k : RKey) (v : PyVal)
    (ttl : Option Nat) :
    RCache.get c (RCache.set c store k v ttl) k = some (toLoads v) ∧
    (tupleFree v = true → toLoads v = v) := by
  refine ⟨?_, toLoads_tupleFree v⟩
  rw [RCache.set.eq_def, RCache.get.eq_def]
  simp only [storeGet_storeSet_self, if_neg (render_ne_nil v), loads_render]

/-- Witness for C8's amended statement: a tuple-free dictionary value
round-trips identically. -/
theorem cache_set_get_roundtrip_witness :
    RCache.get part5Cache
        (RCache.set part5Cache [] ['x']
          (.pdict (.dcons ['a'] (.pint 3) .dnil)) none) ['x'] =
      some (.pdict (.dcons ['a'] (.pint 3) .dnil)) := by
  have h := cache_set_get_roundtrip part5Cache [] ['x']
    (.pdict (.dcons ['a'] (.pint 3) .dnil)) none
  rw [h.1, h.2 (by decide)]

/-! ## Cached query facade -/

/-- C3 counterexample: `get_part5_categories` on a cache miss writes the
raw collaborator's result unconditionally — an empty list *does* create
a cache entry (the serialised `[]` under the metadata key), contradicting
"an empty list or absent result never creates a cache entry". -/
theorem categories_empty_list_creates_entry :
    (getPart5Categories [] (.plist .nil) true).2 =
      [(metadataCache.makeKey "categories".toList, (['[', ']'], 86400))] := by
  rfl

/-- C3 as amended: only the item/list queries guard their cache write by
truthiness of the result (an empty result leaves the store untouched, a
non-empty one is written); the aggregate-count and metadata/category
operations write the collaborator's result unconditionally on a miss —
including an empty list or a null count. -/
theorem cache_write_guards (store : Store) (params : RKey) (db : PyVal) :
    (part5Cache.get store ("qs:".toList ++ params) = none →
      pyTruthy db = false →
      getPart5Questions store params db true = (db, store)) ∧
    (part5Cache.get store ("qs:".toList ++ params) = none →
      pyTruthy db = true →
      getPart5Questions store params db true =
        (db, part5Cache.set store ("qs:".toList ++ params) db none)) ∧
    (metadataCache.get store "categories".toList = none →
      getPart5Categories store db true =
        (db, metadataCache.set store "categories".toList db none)) ∧
    (part5Cache.get store ("count:".toList ++ params) = none →
      getPart5TotalCount store params db true =
        (db, part5Cache.set store ("count:".toList ++ params) db (some 7200))) := by
  refine ⟨fun hmiss hdb => ?_, fun hmiss hdb => ?_, fun hmiss => ?_, fun hmiss => ?_⟩
  · simp at hmiss
    simp [getPart5Questions, hmiss, hdb, pyOptTruthy]
  · simp at hmiss
    simp [getPart5Questions, hmiss, hdb, pyOptTruthy]
  · simp at hmiss
    simp [getPart5Categories, hmiss, pyOptTruthy]
  · simp at hmiss
    simp [getPart5TotalCount, hmiss, pyOptIsNone]

/-- Witness for C3's amended statement: on an empty store, an empty-list
DB result leaves the questions cache untouched but is written by the
categories operation, and a null count is written by the count
operation. -/
theorem cache_write_guards_witness :
    getPart5Questions [] ['p'] (.plist .nil) true = (.plist .nil, []) ∧
    getPart5Categories [] (.plist .nil) true =
      (.plist .nil, metadataCache.set [] "categories".toList (.plist .nil) none) ∧
    getPart5TotalCount [] ['p'] .pnone true =
      (.pnone, part5Cache.set [] ("count:".toList ++ ['p']) .pnone (some 7200)) :=
  have h1 := cache_write_guards [] ['p'] (.plist .nil)
  have h2 := cache_write_guards [] ['p'] .pnone
  ⟨h1.1 (by rfl) (by rfl), h1.2.2.1 (by rfl), h2.2.2.2 (by rfl)⟩

/-! ## clear_cache -/

theorem del_snd (c : RCache) (st : Store) (k : RKey) :
    (c.del st k).2 = st.filter (fun e => decide (¬ e.1 = c.makeKey k)) := rfl

theorem foldl_del_eq (c : RCache) :
    ∀ (ks : List RKey) (st : Store),
    ks.foldl (fun st k => (c.del st k).2) st =
      st.filter (fun e => decide (∀ m ∈ ks, ¬ e.1 = c.makeKey m)) := by
  intro ks
  induction ks with
  | nil =>
      intro st
      simp
  | cons k ks ih =>
      intro st
      rw [List.foldl_cons, del_snd, ih, List.filter_filter]
      refine List.filter_congr fun a _ => ?_
      by_cases h1 : a.1 = c.makeKey k <;>
        by_cases h2 : ∀ m ∈ ks, ¬ a.1 = c.makeKey m <;>
          simp [h1, h2, List.forall_mem_cons]

theorem keysAll_length (c : RCache) :
    ∀ store : Store, (c.keysAll store).length =
      (store.filter (fun e => decide ((c.keyPrefix ++ [':']) <+: e.1))).length := by
  intro store
  induction store with
  | nil => rfl
  | cons e rest ih =>
      simp only [RCache.keysAll, List.map_cons, List.filterMap_cons] at ih ⊢
      by_cases h : (c.keyPrefix ++ [':']) <+: e.1
      · have hd : decide ((c.keyPrefix ++ [':']) <+: e.1) = true := decide_eq_true h
        rw [if_pos h]
        simp only [List.filter_cons, hd, if_true, List.length_cons]
        omega
      · have hd : decide ((c.keyPrefix ++ [':']) <+: e.1) = false := decide_eq_false h
        rw [if_neg h]
        simp only [List.filter_cons, hd, Bool.false_eq_true, if_false]
        exact ih

theorem makeKey_eq_append (c : RCache) (m : RKey) :
    c.makeKey m = (c.keyPrefix ++ [':']) ++ m := by
  simp [RCache.makeKey]

theorem clearOne_spec (c : RCache) (store : Store) :
    (clearOne c store).1 =
      (store.filter (fun e => decide ((c.keyPrefix ++ [':']) <+: e.1))).length ∧
    (clearOne c store).2 =
      store.filter (fun e => decide (¬ (c.keyPrefix ++ [':']) <+: e.1)) := by
  constructor
  · exact keysAll_length c store
  · show (c.keysAll store).foldl (fun st k => (c.del st k).2) store = _
    rw [foldl_del_eq]
    refine List.filter_congr fun a ha => ?_
    refine decide_eq_decide.mpr ?_
    constructor
    · intro hall hpre
      obtain ⟨t, ht⟩ := hpre
      have hmem : t ∈ c.keysAll store := by
        rw [RCache.keysAll]
        refine List.mem_filterMap.mpr ⟨a.1, List.mem_map_of_mem _ ha, ?_⟩
        rw [if_pos ⟨t, ht⟩]
        have hlen : (c.keyPrefix ++ [':']).length = c.keyPrefix.length + 1 := by simp
        rw [← ht, ← hlen, List.drop_left]
      exact hall t hmem (by rw [makeKey_eq_append, ht])
    · intro hnp m _ he
      exact hnp ⟨m, by rw [← makeKey_eq_append, he]⟩

theorem prefixes_disjoint {p q : List Char} (k : List Char) (h1 : ¬ p <+: q)
    (h2 : ¬ q <+: p) : ¬(p <+: k ∧ q <+: k) := fun ⟨hp, hq⟩ =>
  (List.prefix_or_prefix_of_prefix hp hq).elim h1 h2

theorem length_filter_disjoint {α : Type} (p q : α → Bool) :
    ∀ l : List α, (∀ a ∈ l, ¬(p a = true ∧ q a = true)) →
    (l.filter p).length + (l.filter q).length =
      (l.filter (fun a => p a || q a)).length := by
  intro l
  induction l with
  | nil => intro _; rfl
  | cons a l ih =>
      intro h
      have ha := h a (by simp)
      have ih' := ih fun b hb => h b (by simp [hb])
      cases hpa : p a <;> cases hqa : q a
      · simp only [List.filter_cons, hpa, hqa, Bool.or_self, Bool.false_eq_true,
          if_false]
        exact ih'
      · simp only [List.filter_cons, hpa, hqa, Bool.false_or, Bool.false_eq_true,
          if_false, if_true, List.length_cons]
        omega
      · simp only [List.filter_cons, hpa, hqa, Bool.or_false, Bool.false_eq_true,
          if_false, if_true, List.length_cons]
        omega
      · exact absurd ⟨hpa, hqa⟩ ha

theorem filter_prune {α : Type} (p q : α → Bool) (l : List α)
    (h : ∀ a ∈ l, p a = true → q a = true) :
    (l.filter q).filter p = l.filter p := by
  rw [List.filter_filter]
  refine List.filter_congr fun a ha => ?_
  cases hp : p a
  · simp
  · simp [h a ha hp]

/-- The global branch of `clear_cache`: all four prefixes are removed
and the returned count is the number of entries they covered. -/
theorem clearAll_spec (store : Store) :
    clearCache none store =
      ((store.filter (fun e => decide ((part5Cache.keyPrefix ++ [':']) <+: e.1 ∨
          (part6Cache.keyPrefix ++ [':']) <+: e.1 ∨
          (part7Cache.keyPrefix ++ [':']) <+: e.1 ∨
          (metadataCache.keyPrefix ++ [':']) <+: e.1))).length,
        store.filter (fun e => decide (¬((part5Cache.keyPrefix ++ [':']) <+: e.1 ∨
          (part6Cache.keyPrefix ++ [':']) <+: e.1 ∨
          (part7Cache.keyPrefix ++ [':']) <+: e.1 ∨
          (metadataCache.keyPrefix ++ [':']) <+: e.1)))) := by
  have d56 : ∀ k : RKey, ¬((part5Cache.keyPrefix ++ [':']) <+: k ∧
      (part6Cache.keyPrefix ++ [':']) <+: k) :=
    fun k => prefixes_disjoint k (by decide) (by decide)
  have d57 : ∀ k : RKey, ¬((part5Cache.keyPrefix ++ [':']) <+: k ∧
      (part7Cache.keyPrefix ++ [':']) <+: k) :=
    fun k => prefixes_disjoint k (by decide) (by decide)
  have d5m : ∀ k : RKey, ¬((part5Cache.keyPrefix ++ [':']) <+: k ∧
      (metadataCache.keyPrefix ++ [':']) <+: k) :=
    fun k => prefixes_disjoint k (by decide) (by decide)
  have d67 : ∀ k : RKey, ¬((part6Cache.keyPrefix ++ [':']) <+: k ∧
      (part7Cache.keyPrefix ++ [':']) <+: k) :=
    fun k => prefixes_disjoint k (by decide) (by decide)
  have d6m : ∀ k : RKey, ¬((part6Cache.keyPrefix ++ [':']) <+: k ∧
      (metadataCache.keyPrefix ++ [':']) <+: k) :=
    fun k => prefixes_disjoint k (by decide) (by decide)
  have d7m : ∀ k : RKey, ¬((part7Cache.keyPrefix ++ [':']) <+: k ∧
      (metadataCache.keyPrefix ++ [':']) <+: k) :=
    fun k => prefixes_disjoint k (by decide) (by decide)
  obtain ⟨n5, s1, h51⟩ : ∃ n s, clearOne part5Cache store = (n, s) := ⟨_, _, rfl⟩
  obtain ⟨n6, s2, h62⟩ : ∃ n s, clearOne part6Cache s1 = (n, s) := ⟨_, _, rfl⟩
  obtain ⟨n7, s3, h73⟩ : ∃ n s, clearOne part7Cache s2 = (n, s) := ⟨_, _, rfl⟩
  obtain ⟨nm, s4, hm4⟩ : ∃ n s, clearOne metadataCache s3 = (n, s) := ⟨_, _, rfl⟩
  have hrun : clearCache none store = (n5 + n6 + n7 + nm, s4) := by
    simp [clearCache, h51, h62, h73, hm4]
  have hn5 : n5 = (store.filter
      (fun e => decide ((part5Cache.keyPrefix ++ [':']) <+: e.1))).length := by
    rw [← (clearOne_spec part5Cache store).1, h51]
  have hs1 : s1 = store.filter
      (fun e => decide (¬ (part5Cache.keyPrefix ++ [':']) <+: e.1)) := by
    rw [← (clearOne_spec part5Cache store).2, h51]
  have hn6 : n6 = (s1.filter
      (fun e => decide ((part6Cache.keyPrefix ++ [':']) <+: e.1))).length := by
    rw [← (clearOne_spec part6Cache s1).1, h62]
  have hs2 : s2 = s1.filter
      (fun e => decide (¬ (part6Cache.keyPrefix ++ [':']) <+: e.1)) := by
    rw [← (clearOne_spec part6Cache s1).2, h62]
  have hn7 : n7 = (s2.filter
      (fun e => decide ((part7Cache.keyPrefix ++ [':']) <+: e.1))).length := by
    rw [← (clearOne_spec part7Cache s2).1, h73]
  have hs3 : s3 = s2.filter
      (fun e => decide (¬ (part7Cache.keyPrefix ++ [':']) <+: e.1)) := by
    rw [← (clearOne_spec part7Cache s2).2, h73]
  have hnm : nm = (s3.filter
      (fun e => decide ((metadataCache.keyPrefix ++ [':']) <+: e.1))).length := by
    rw [← (clearOne_spec metadataCache s3).1, hm4]
  have hs4 : s4 = s3.filter
      (fun e => decide (¬ (metadataCache.keyPrefix ++ [':']) <+: e.1)) := by
    rw [← (clearOne_spec metadataCache s3).2, hm4]
  -- prune earlier deletions out of the later counts
  have hn6' : n6 = (store.filter
      (fun e => decide ((part6Cache.keyPrefix ++ [':']) <+: e.1))).length := by
    rw [hn6, hs1, filter_prune]
    intro a _ hp
    exact decide_eq_true fun hP5 => d56 a.1 ⟨hP5, of_decide_eq_true hp⟩
  have hs2' : s2 = store.filter
      (fun e => decide (¬ (part6Cache.keyPrefix ++ [':']) <+: e.1) &&
        decide (¬ (part5Cache.keyPrefix ++ [':']) <+: e.1)) := by
    rw [hs2, hs1, List.filter_filter]
  have hn7' : n7 = (store.filter
      (fun e => decide ((part7Cache.keyPrefix ++ [':']) <+: e.1))).length := by
    rw [hn7, hs2', filter_prune]
    intro a _ hp
    have hp7 := of_decide_eq_true hp
    simp only [Bool.and_eq_true]
    exact ⟨decide_eq_true fun hP6 => d67 a.1 ⟨hP6, hp7⟩,
      decide_eq_true fun hP5 => d57 a.1 ⟨hP5, hp7⟩⟩
  have hs3' : s3 = store.filter
      (fun e => decide (¬ (part7Cache.keyPrefix ++ [':']) <+: e.1) &&
        (decide (¬ (part6Cache.keyPrefix ++ [':']) <+: e.1) &&
          decide (¬ (part5Cache.keyPrefix ++ [':']) <+: e.1))) := by
    rw [hs3, hs2', List.filter_filter]
  have hnm' : nm = (store.filter
      (fun e => decide ((metadataCache.keyPrefix ++ [':']) <+: e.1))).length := by
    rw [hnm, hs3', filter_prune]
    intro a _ hp
    have hpm := of_decide_eq_true hp
    simp only [Bool.and_eq_true]
    exact ⟨decide_eq_true fun hP7 => d7m a.1 ⟨hP7, hpm⟩,
      decide_eq_true fun hP6 => d6m a.1 ⟨hP6, hpm⟩,
      decide_eq_true fun hP5 => d5m a.1 ⟨hP5, hpm⟩⟩
  have hs4' : s4 = store.filter
      (fun e => decide (¬((part5Cache.keyPrefix ++ [':']) <+: e.1 ∨
        (part6Cache.keyPrefix ++ [':']) <+: e.1 ∨
        (part7Cache.keyPrefix ++ [':']) <+: e.1 ∨
        (metadataCache.keyPrefix ++ [':']) <+: e.1))) := by
    rw [hs4, hs3', List.filter_filter]
    refine List.filter_congr fun a _ => ?_
    by_cases hP5 : (part5Cache.keyPrefix ++ [':']) <+: a.1 <;>
      by_cases hP6 : (part6Cache.keyPrefix ++ [':']) <+: a.1 <;>
        by_cases hP7 : (part7Cache.keyPrefix ++ [':']) <+: a.1 <;>
          by_cases hPM : (metadataCache.keyPrefix ++ [':']) <+: a.1 <;>
            simp [hP5, hP6, hP7, hPM]
  have hcount : n5 + n6 + n7 + nm = (store.filter
      (fun e => decide ((part5Cache.keyPrefix ++ [':']) <+: e.1 ∨
        (part6Cache.keyPrefix ++ [':']) <+: e.1 ∨
        (part7Cache.keyPrefix ++ [':']) <+: e.1 ∨
        (metadataCache.keyPrefix ++ [':']) <+: e.1))).length := by
    rw [hn5, hn6', hn7', hnm']
    rw [length_filter_disjoint _ _ store
      (fun a _ h => d56 a.1 ⟨of_decide_eq_true h.1, of_decide_eq_true h.2⟩)]
    rw [length_filter_disjoint _ _ store (fun a _ h => ?_)]
    rotate_left
    · have h7 := of_decide_eq_true h.2
      rcases Bool.or_eq_true _ _ |>.mp h.1 with h' | h'
      · exact d57 a.1 ⟨of_decide_eq_true h', h7⟩
      · exact d67 a.1 ⟨of_decide_eq_true h', h7⟩
    rw [length_filter_disjoint _ _ store (fun a _ h => ?_)]
    rotate_left
    · have hm' := of_decide_eq_true h.2
      rcases Bool.or_eq_true _ _ |>.mp h.1 with h' | h'
      · rcases Bool.or_eq_true _ _ |>.mp h' with h'' | h''
        · exact d5m a.1 ⟨of_decide_eq_true h'', hm'⟩
        · exact d6m a.1 ⟨of_decide_eq_true h'', hm'⟩
      · exact d7m a.1 ⟨of_decide_eq_true h', hm'⟩
    congr 1
    refine List.filter_congr fun a _ => ?_
    by_cases hP5 : (part5Cache.keyPrefix ++ [':']) <+: a.1 <;>
      by_cases hP6 : (part6Cache.keyPrefix ++ [':']) <+: a.1 <;>
        by_cases hP7 : (part7Cache.keyPrefix ++ [':']) <+: a.1 <;>
          by_cases hPM : (metadataCache.keyPrefix ++ [':']) <+: a.1 <;>
            simp [hP5, hP6, hP7, hPM]
  rw [hrun, hcount, hs4']

/-- C9: `clear_cache` with any resource type other than exactly
`"part5"`, `"part6"`, `"part7"` or `"metadata"` — a misspelled name as
much as the intended omitted argument — takes the global branch, which
deletes every key of all four caches (exactly the store entries whose
key bears one of the four prefixes) and returns the total number
removed. -/
theorem clearCache_fallthrough (rt : String) (store : Store)
    (h5 : rt ≠ "part5") (h6 : rt ≠ "part6") (h7 : rt ≠ "part7")
    (hm : rt ≠ "metadata") :
    clearCache (some rt) store = clearCache none store ∧
    (clearCache none store).1 =
      (store.filter (fun e => decide ((part5Cache.keyPrefix ++ [':']) <+: e.1 ∨
        (part6Cache.keyPrefix ++ [':']) <+: e.1 ∨
        (part7Cache.keyPrefix ++ [':']) <+: e.1 ∨
        (metadataCache.keyPrefix ++ [':']) <+: e.1))).length ∧
    (clearCache none store).2 =
      store.filter (fun e => decide (¬((part5Cache.keyPrefix ++ [':']) <+: e.1 ∨
        (part6Cache.keyPrefix ++ [':']) <+: e.1 ∨
        (part7Cache.keyPrefix ++ [':']) <+: e.1 ∨
        (metadataCache.keyPrefix ++ [':']) <+: e.1))) :=
  ⟨by simp [clearCache, h5, h6, h7, hm], by rw [clearAll_spec], by rw [clearAll_spec]⟩

/-- Witness for C9: the misspelled resource type `"part12"` clears
everything, removing the one prefixed key of a concrete two-key store
and reporting count 1. -/
theorem clearCache_fallthrough_witness :
    clearCache (some "part12") [("part5:a".toList, (['1'], 60)), (['z'], (['2'], 60))] =
      clearCache none [("part5:a".toList, (['1'], 60)), (['z'], (['2'], 60))] ∧
    (clearCache none [("part5:a".toList, (['1'], 60)), (['z'], (['2'], 60))]).1 = 1 ∧
    (clearCache none [("part5:a".toList, (['1'], 60)), (['z'], (['2'], 60))]).2 =
      [(['z'], (['2'], 60))] := by
  have h := clearCache_fallthrough "part12"
    [("part5:a".toList, (['1'], 60)), (['z'], (['2'], 60))]
    (by decide) (by decide) (by decide) (by decide)
  refine ⟨h.1, ?_, ?_⟩
  · rw [h.2.1]
    decide
  · rw [h.2.2]
    decide

end Toeic4all
